import Mathlib

/-!
Verification development for the Banshee search-orchestration engine
(`banshee.go`).  The Go source is shallowly embedded: strings are modeled
as `List Char` (Go works on bytes; the inputs of interest are ASCII),
the mutable fields of the `Config` struct become an explicit state record
that is threaded through the loops, and the environment (HTTP responses,
the time-derived pseudo-random key index, context cancellation) is an
explicit oracle.  The float64 `dynamicDelay` field is modeled in units of
0.05 seconds (the smallest step the source uses), so `0.25` becomes `5`,
the `-= 0.05` step becomes `-= 1`, the `+= 0.1` step becomes `+= 2` and
the guard `> 0.05` becomes `> 1`; this is exact for the sign and
"unchanged" properties stated below.
-/

namespace Banshee

/-- Strings modeled as character lists (Go byte strings, ASCII range). -/
abbrev Str := List Char

/-- Coerce a Lean string literal into the model representation. -/
def str (s : String) : Str := s.toList

/-- Whitespace test used by `strings.TrimSpace` (ASCII subset). -/
def chIsSpace (c : Char) : Bool :=
  c = ' ' || c = '\t' || c = '\n' || c = '\r' || c = '\x0b' || c = '\x0c'

/-- Model of `strings.TrimSpace`. -/
def trimL (s : Str) : Str :=
  ((s.dropWhile chIsSpace).reverse.dropWhile chIsSpace).reverse

/-- ASCII lower-casing of one character, as `strings.ToLower` does for ASCII. -/
def chToLower (c : Char) : Char :=
  if 'A' ≤ c ∧ c ≤ 'Z' then Char.ofNat (c.toNat + 32) else c

/-- Model of `strings.ToLower` (ASCII range). -/
def lowerL (s : Str) : Str := s.map chToLower

/-- List-of-chars prefix test. -/
def isPrefixOfL : Str → Str → Bool
  | [], _ => true
  | _ :: _, [] => false
  | a :: as, b :: bs => a = b && isPrefixOfL as bs

/-- Model of `strings.Contains sub s`: `sub` occurs contiguously in `s`. -/
def containsL (sub : Str) : Str → Bool
  | [] => isPrefixOfL sub []
  | c :: rest => isPrefixOfL sub (c :: rest) || containsL sub rest

/-- Model of `strings.Split s ","` (single-character separator). -/
def splitChar (sep : Char) : Str → List Str
  | [] => [[]]
  | c :: rest =>
    if c = sep then [] :: splitChar sep rest
    else
      match splitChar sep rest with
      | [] => [[c]]
      | g :: gs => (c :: g) :: gs

/-- Model of `strings.Split s "|||"`, the sentinel join used by `buildInurlQuery`. -/
def splitBars : Str → List Str
  | '|' :: '|' :: '|' :: rest => [] :: splitBars rest
  | c :: rest =>
    match splitBars rest with
    | [] => [[c]]
    | g :: gs => (c :: g) :: gs
  | [] => [[]]

/-- Model of `strings.Trim s "\""`: strip all leading/trailing double quotes. -/
def trimQuotesL (s : Str) : Str :=
  ((s.dropWhile (· = '"')).reverse.dropWhile (· = '"')).reverse

/-- Model of `strings.Join parts sep`. -/
def joinSep (sep : Str) : List Str → Str
  | [] => []
  | [p] => p
  | p :: q :: rest => p ++ sep ++ joinSep sep (q :: rest)

/-- Hex digit value, as `net/url`'s unhex. -/
def unhex (c : Char) : Option Nat :=
  if '0' ≤ c ∧ c ≤ '9' then some (c.toNat - '0'.toNat)
  else if 'a' ≤ c ∧ c ≤ 'f' then some (c.toNat - 'a'.toNat + 10)
  else if 'A' ≤ c ∧ c ≤ 'F' then some (c.toNat - 'A'.toNat + 10)
  else none

/-- Model of `url.QueryUnescape`: `%XX` escapes become the coded byte, `+`
becomes a space, and any malformed escape makes the whole call fail. -/
def queryUnescapeL : Str → Option Str
  | '%' :: a :: b :: rest =>
    match unhex a, unhex b with
    | some ha, some hb =>
      (queryUnescapeL rest).map (fun r => Char.ofNat (16 * ha + hb) :: r)
    | _, _ => none
  | '%' :: _ => none
  | '+' :: rest => (queryUnescapeL rest).map (fun r => ' ' :: r)
  | c :: rest => (queryUnescapeL rest).map (fun r => c :: r)
  | [] => some []

/-- Fuel-indexed left-to-right non-overlapping replacement; the fuel starts at
the length of the subject string, which is enough since every step consumes at
least one character. -/
def replaceFuel (pat rep : Str) : Nat → Str → Str
  | 0, s => s
  | _ + 1, [] => []
  | fuel + 1, c :: rest =>
    if pat ≠ [] && isPrefixOfL pat (c :: rest) then
      rep ++ replaceFuel pat rep fuel (rest.drop (pat.length - 1))
    else
      c :: replaceFuel pat rep fuel rest

/-- Model of `strings.ReplaceAll` (for the non-empty patterns used here). -/
def replaceL (pat rep s : Str) : Str := replaceFuel pat rep s.length s

/-- The fixed replacement table of `urlDecodeLikeSed`.  The Go code iterates a
map, whose order is unspecified; the keys are mutually non-overlapping and the
replacements introduce no `%`, so the order is immaterial.  The source listing
order is used. -/
def replsList : List (Str × Str) :=
  [(str "%2520", str " "), (str "%20", str " "), (str "%3F", str "?"),
   (str "%3D", str "="), (str "%21", str "!"), (str "%23", str "#"),
   (str "%24", str "$"), (str "%2B", str "+"), (str "%26", str "&")]

/-- Model of `urlDecodeLikeSed`: standard percent-decoding (falling back to the
input on a decode error), then the fixed replacement table. -/
def urlDecodeLikeSed (s : Str) : Str :=
  let decoded := match queryUnescapeL s with
    | some cs => cs
    | none => s
  replsList.foldl (fun acc kv => replaceL kv.1 kv.2 acc) decoded

/-- The filter predicate of the loop in `filterLinks`: drop empty links, links
not containing the target (case-insensitively), and links matching the
`(?i)google` host filter. -/
def keepLink (target l : Str) : Bool :=
  if l = [] then false
  else if !(containsL (lowerL target) (lowerL l)) then false
  else if containsL (str "google") (lowerL l) then false
  else true

/-- Accumulator loop of `uniqueStrings`: skip empties and already-seen strings. -/
def uniqueAux (seen : List Str) : List Str → List Str
  | [] => []
  | s :: rest =>
    if s = [] then uniqueAux seen rest
    else if s ∈ seen then uniqueAux seen rest
    else s :: uniqueAux (s :: seen) rest

/-- Model of `uniqueStrings`. -/
def uniqueStrings (l : List Str) : List Str := uniqueAux [] l

/-- Model of `filterLinks`: the source loop keeps each link passing the three
checks, appends its decoded form, and deduplicates at the end. -/
def filterLinks (items : List Str) (target : Str) : List Str :=
  uniqueStrings ((items.filter (keepLink target)).map urlDecodeLikeSed)

/-- Byte-wise lexicographic string order, as `sort.Strings` uses. -/
def leL : Str → Str → Bool
  | [], _ => true
  | _ :: _, [] => false
  | a :: as, b :: bs => if a = b then leL as bs else decide (a < b)

/-- Insert into a sorted list (ascending). -/
def insertSorted (s : Str) : List Str → List Str
  | [] => [s]
  | t :: rest => if leL s t then s :: t :: rest else t :: insertSorted s rest

/-- Model of `sort.Strings`: any algorithm producing the ascending
rearrangement agrees with Go's unstable sort on strings. -/
def sortStrings : List Str → List Str
  | [] => []
  | s :: rest => insertSorted s (sortStrings rest)

/-- Model of `readLines`: each line trimmed, blank lines skipped. -/
def readLinesM (file : List Str) : List Str :=
  (file.map trimL).filter (fun s => s ≠ [])

/-- The append loop of `outputOrPrintUnique`: write lines not already present,
remembering what has been written. -/
def appendNew : List Str → List Str → List Str
  | [], _ => []
  | u :: rest, existing =>
    if u ∈ existing then appendNew rest existing
    else u :: appendNew rest (u :: existing)

/-- Observable outcome of the Output Sink: what was printed to stdout and the
final content of the output file (as a list of lines). -/
structure SinkRes where
  printed : List Str
  file : List Str
  deriving DecidableEq

/-- Model of `outputOrPrintUnique`.  `file` is the current content of the
output file (`readLines` of a missing file is the empty list); `openOk` is
false when `os.OpenFile` fails, in which case the source prints the unique
lines to stdout instead. -/
def outputOrPrintUnique (urls : List Str) (outputPath : String)
    (file : List Str) (openOk : Bool) : SinkRes :=
  let uniq := sortStrings (uniqueStrings urls)
  if outputPath = "" then ⟨uniq, file⟩
  else
    let existing := readLinesM file
    if openOk = false then ⟨uniq, file⟩
    else ⟨[], file ++ appendNew uniq existing⟩

/-! ## Data model of the engine -/

/-- Model of the JSON `GoogleResponse`: the item links and the optional error
message (`none` when the `Error` object is absent). -/
structure GoogleResponse where
  items : List Str
  error : Option Str
  deriving DecidableEq

/-- Outcome of one `httpGetJSON` call: a transport/decode failure, or a parsed
response. -/
inductive TransportResult where
  | fail
  | ok (gr : GoogleResponse)
  deriving DecidableEq

/-- The environment of a run: the response to the n-th transport call, the
`time.Now().UnixNano()` value at the n-th key selection, and the checkpoint
index from which `ctx.Err()` is non-nil (`none`: never cancelled).  Both the
response and the nano streams are indexed by event order, which is fully
general for a sequential run. -/
structure Env where
  resp : Nat → TransportResult
  nano : Nat → Nat
  cancelAt : Option Nat

/-- Whether `ctx.Err() != nil` at checkpoint number `k` (cancellation is
monotone in time, hence in the checkpoint counter). -/
def cancelled (env : Env) (k : Nat) : Bool :=
  match env.cancelAt with
  | none => false
  | some n => decide (n ≤ k)

/-- The observable content of one request URL built by `buildOne`: the API
key, the 1-based start offset, and the (trimmed, pre-URL-encoding) query text.
The fixed endpoint, `cx` identifier and the URL-encoding wrapper are constants
of the transport and are not repeated here. -/
structure Req where
  key : Str
  start : Nat
  q : Str
  deriving DecidableEq

/-- Ghost trace record of one transport call: the page index, the `triedKeys`
value of the attempt, the selected key and start offset, the transport-call
counter (`idx`), the selection counter of the attempt (`sel`), the checkpoint
counter at the pre-call check (`ck`), the `dynamicDelay` value at the call
(in 0.05 s units), and the exhausted set at the attempt's key selection. -/
structure CallRec where
  page : Nat
  attempt : Nat
  key : Str
  start : Nat
  idx : Nat
  sel : Nat
  ck : Nat
  dyn : Int
  exhAtSel : List Str
  deriving DecidableEq

/-- The mutable state of `Config` threaded through the run, plus the ghost
event counters and the call trace.  `dynamicDelay` is in units of 0.05 s. -/
structure RunSt where
  requestStore : List Str
  exhaustedKeys : List Str
  dynamicDelay : Int
  resultsFound : Bool
  noResultCounter : Nat
  requestCounter : Nat
  callCtr : Nat
  selCtr : Nat
  ckCtr : Nat
  calls : List CallRec
  deriving DecidableEq

/-- The immutable configuration of a run (flag-derived `Config` fields).
`pages` is the Go `int` flag; `delay` is the `-d` override in 0.05 s units
(`0` = not set, as in the source, whose guards test `c.delay == 0`). -/
structure Cfg where
  target : Str
  pages : Int
  dork : Str
  excludeTargets : Str
  contents : Str
  inFile : Str
  dictionary : Str
  inUrl : Str
  extension : Str
  delay : Int
  includeSubdomains : Bool
  subdomainMode : Bool
  apiKeys : List Str
  deriving DecidableEq

/-- Model of `if c.pages == 0 { c.pages = 10 }`. -/
def pagesN (cfg : Cfg) : Int := if cfg.pages = 0 then 10 else cfg.pages

/-- Model of the `markExhausted` effect `c.exhaustedKeys[apiKey] = struct{}{}`
(map insertion, idempotent). -/
def markExhausted (l : List Str) (k : Str) : List Str :=
  if k ∈ l then l else l ++ [k]

/-- The quota signal: the error message contains "quota" case-insensitively. -/
def isQuotaMsg (m : Str) : Bool := containsL (str "quota") (lowerL m)

/-- Model of `getRandomApiKey`'s available list: keys not in the exhausted
set, in pool order. -/
def availableKeys (apiKeys exhausted : List Str) : List Str :=
  apiKeys.filter (fun k => decide (k ∉ exhausted))

/-! ## Query builders -/

/-- The exclusion-clause builder loop of `buildExclusions`: `-site:<first>`
then `+-<entry>` for each later entry. -/
def buildExclusionsFromParts : List Str → Str
  | [] => []
  | p :: rest => rest.foldl (fun b e => b ++ str "+-" ++ e) (str "-site:" ++ p)

/-- The parts list `buildExclusions` assembles before the builder loop.  The
`fileExists` branch is modeled by `exclusionPartsFile` below; this is the pure
comma-separated / single-value path. -/
def exclusionParts (exclusions : Str) : List Str :=
  if containsL (str ",") exclusions then
    ((splitChar ',' exclusions).map trimL).filter (fun s => s ≠ [])
  else [trimL exclusions]

/-- The parts list of `buildExclusions` when the argument names a file whose
(trimmed, non-blank) lines are `lines` — `readLines` already trims and drops
blanks, and the loop re-trims and re-filters. -/
def exclusionPartsFile (lines : List Str) : List Str :=
  ((lines.map trimL).filter (fun s => s ≠ []))

/-- Model of `buildExclusions` on the non-file paths. -/
def buildExclusions (exclusions : Str) : Str :=
  buildExclusionsFromParts (exclusionParts exclusions)

/-- The term cleaner of `buildInurlQuery`: trim whitespace, then strip
surrounding double quotes. -/
def cleanTerm (s : Str) : Str := trimQuotesL (trimL s)

/-- Model of `buildInurlQuery` on the non-file paths: cleaned terms joined
with the `|||` sentinel. -/
def buildInurlQuery (dict : Str) : Str :=
  let terms :=
    if containsL (str ",") dict then
      ((splitChar ',' dict).map cleanTerm).filter (fun s => s ≠ [])
    else if cleanTerm dict ≠ [] then [cleanTerm dict] else []
  joinSep (str "|||") terms

/-- Model of `buildContentsQuery` on the non-file paths: one `intext:"…"`
clause, or OR-joined clauses for a comma-separated value. -/
def buildContentsQuery (contents : Str) : Str :=
  if containsL (str ",") contents then
    joinSep (str " OR ")
      ((((splitChar ',' contents).map trimL).filter (fun s => s ≠ [])).map
        (fun s => str "intext:\"" ++ s ++ str "\""))
  else str "intext:\"" ++ contents ++ str "\""

/-- Model of `withExcl` in `dorkRun`. -/
def withExcl (cfg : Cfg) (q : Str) : Str :=
  if cfg.excludeTargets ≠ [] then q ++ str " " ++ cfg.excludeTargets else q

/-- Model of `buildOne` in `dorkRun`: the query text is trimmed and attached
to the key/offset parameters (URL-encoding is a bijective transport wrapper). -/
def buildOne (apiKey : Str) (startIdx : Nat) (q : Str) : Req :=
  ⟨apiKey, startIdx, trimL q⟩

/-- The long negative-subdomain query of the aggressive custom-dork branch,
transcribed from the `fmt.Sprintf` in the source. -/
def bigAggr (t d : Str) : Str :=
  str "site:*." ++ t ++ str " " ++ d ++ str " -www." ++ t ++
  str " -techblog." ++ t ++ str " -infohub." ++ t ++ str " -blog." ++ t ++
  str " -store." ++ t ++ str " -support." ++ t ++ str " -help." ++ t ++
  str " -addons." ++ t ++ str " -forum." ++ t ++ str " -community." ++ t ++
  str " -docs." ++ t ++ str " -developer." ++ t ++ str " -about." ++ t ++
  str " -resources." ++ t ++ str " -cdn." ++ t ++ str " -career." ++ t ++
  str " -faq." ++ t ++ str " -news." ++ t ++ str " -jobs." ++ t ++
  str " -library." ++ t ++ str " -id." ++ t ++ str " -blogs." ++ t ++
  str " -faq." ++ t ++ str " -trust." ++ t ++ str " -forums." ++ t ++
  str " -dl." ++ t ++ str " -downloads." ++ t

/-- The `switch` in `dorkRun` that builds the request URLs for one attempt,
in source order: custom dork, extension argument, dictionary, contents,
plain site query. -/
def buildRequests (cfg : Cfg) (ext : Str) (apiKey : Str) (startIdx : Nat) :
    List Req :=
  if cfg.dork ≠ [] then
    if cfg.includeSubdomains then
      [buildOne apiKey startIdx (withExcl cfg
         (str "site:*." ++ cfg.target ++ str " " ++ cfg.dork ++ str " -www." ++ cfg.target)),
       buildOne apiKey startIdx (withExcl cfg
         (str "site:*.*." ++ cfg.target ++ str " " ++ cfg.dork)),
       buildOne apiKey startIdx (withExcl cfg
         (str "site:*.*.*." ++ cfg.target ++ str " " ++ cfg.dork)),
       buildOne apiKey startIdx (withExcl cfg (bigAggr cfg.target cfg.dork))]
    else
      [buildOne apiKey startIdx (withExcl cfg
         (str "site:" ++ cfg.target ++ str " " ++ cfg.dork))]
  else if ext ≠ [] then
    let extToken := trimL ext
    let buildQ := fun (scope : Str) =>
      [withExcl cfg (scope ++ str " filetype:" ++ extToken),
       withExcl cfg (scope ++ str " ext:" ++ extToken)]
    if cfg.includeSubdomains then
      ([str "site:" ++ cfg.target, str "site:*." ++ cfg.target,
        str "site:*.*." ++ cfg.target, str "site:*.*.*." ++ cfg.target].flatMap
          buildQ).map (buildOne apiKey startIdx)
    else
      (buildQ (str "site:" ++ cfg.target)).map (buildOne apiKey startIdx)
  else if cfg.dictionary ≠ [] then
    let terms0 := if cfg.inUrl ≠ [] then splitBars cfg.inUrl else []
    let terms := if terms0 = [] then [cfg.dictionary] else terms0
    let buildQ := fun (prefx term : Str) =>
      withExcl cfg (prefx ++ str " inurl:\"" ++ trimL term ++ str "\"")
    if cfg.includeSubdomains then
      terms.flatMap (fun t0 =>
        let t := trimL t0
        if t = [] then []
        else
          [buildOne apiKey startIdx (buildQ (str "site:*." ++ cfg.target) t),
           buildOne apiKey startIdx (buildQ (str "site:*.*." ++ cfg.target) t),
           buildOne apiKey startIdx (buildQ (str "site:*.*.*." ++ cfg.target) t)])
    else
      terms.flatMap (fun t0 =>
        let t := trimL t0
        if t = [] then []
        else [buildOne apiKey startIdx (buildQ (str "site:" ++ cfg.target) t)])
  else if cfg.contents ≠ [] then
    let buildQ := fun (prefx : Str) => withExcl cfg (prefx ++ str " " ++ cfg.inFile)
    if cfg.includeSubdomains then
      [buildOne apiKey startIdx (buildQ (str "site:*." ++ cfg.target)),
       buildOne apiKey startIdx (buildQ (str "site:*.*." ++ cfg.target)),
       buildOne apiKey startIdx (buildQ (str "site:*.*.*." ++ cfg.target))]
    else [buildOne apiKey startIdx (buildQ (str "site:" ++ cfg.target))]
  else [buildOne apiKey startIdx (withExcl cfg (str "site:" ++ cfg.target))]

/-- The links a response contributes before filtering: the item links when
there is no (non-empty) error message, nothing otherwise. -/
def respLinks (r : TransportResult) : List Str :=
  match r with
  | .fail => []
  | .ok gr =>
    match gr.error with
    | some m => if m ≠ [] then [] else gr.items
    | none => gr.items

/-! ## The pagination/retry loop (`dorkRun`) -/

/-- Outcome of the per-attempt URL loop: an early `return c.requestStore`
(cancellation observed before a transport call), or the collected links,
the `respErr` flag and the updated state. -/
inductive UrlOutcome where
  | abort (res : List Str) (st : RunSt)
  | cont (combined : List Str) (respErr : Bool) (st : RunSt)

/-- State carried by a `UrlOutcome`. -/
def UrlOutcome.stOf : UrlOutcome → RunSt
  | .abort _ st => st
  | .cont _ _ st => st

/-- The checkpoint-counter bump of one `ctx.Err()` observation. -/
def bumpCk (st : RunSt) : RunSt := {st with ckCtr := st.ckCtr + 1}

/-- The `c.resultsFound = false` reset between pages. -/
def clearRF (st : RunSt) : RunSt := {st with resultsFound := false}

/-- State effect of issuing one transport call: the checkpoint was observed,
the call counter advances, and the ghost trace records the call. -/
def recordCall (page tried : Nat) (apiKey : Str) (startIdx selIdx : Nat)
    (exhAtSel : List Str) (st : RunSt) : RunSt :=
  {st with ckCtr := st.ckCtr + 1, callCtr := st.callCtr + 1,
           calls := st.calls ++
             [⟨page, tried, apiKey, startIdx, st.callCtr, selIdx, st.ckCtr,
               st.dynamicDelay, exhAtSel⟩]}

/-- State effect of `c.exhaustedKeys[apiKey] = struct{}{}`. -/
def markKey (apiKey : Str) (st : RunSt) : RunSt :=
  {st with exhaustedKeys := markExhausted st.exhaustedKeys apiKey}

/-- State effect of a successful attempt (`len(combined) > 0`): store the
batch, flag the page successful, reset the no-result counter, count the
request, and shrink the adaptive delay (when no `-d` override, floored by the
`> 0.05` guard). -/
def successSt (cfg : Cfg) (combined : List Str) (st : RunSt) : RunSt :=
  {st with requestStore := st.requestStore ++ combined,
           resultsFound := true,
           noResultCounter := 0,
           requestCounter := st.requestCounter + 1,
           dynamicDelay :=
             if cfg.delay = 0 ∧ st.dynamicDelay > 1 then st.dynamicDelay - 1
             else st.dynamicDelay}

/-- State effect of an attempt that returned no links and no error: count the
no-result page and grow the adaptive delay (when no `-d` override). -/
def emptyPageSt (cfg : Cfg) (st : RunSt) : RunSt :=
  {st with noResultCounter := st.noResultCounter + 1,
           dynamicDelay :=
             if cfg.delay = 0 then st.dynamicDelay + 2 else st.dynamicDelay}

/-- The `for _, u := range urls` loop of one attempt.  Each iteration checks
`ctx.Err()`, performs the transport call (consuming `env.resp` at the current
call counter and recording a ghost trace entry), and processes the response:
a transport failure sets `respErr`; an error message marks the key exhausted
when it signals quota and sets `respErr`; otherwise the item links are passed
through `filterLinks` and appended to `combined`. -/
def urlLoop (cfg : Cfg) (env : Env) (page tried : Nat) (apiKey : Str)
    (startIdx selIdx : Nat) (exhAtSel : List Str) :
    List Req → List Str → Bool → RunSt → UrlOutcome
  | [], combined, respErr, st => .cont combined respErr st
  | _u :: rest, combined, respErr, st =>
    if cancelled env st.ckCtr then
      .abort st.requestStore (bumpCk st)
    else
      let st1 := recordCall page tried apiKey startIdx selIdx exhAtSel st
      match env.resp st.callCtr with
      | .fail =>
        urlLoop cfg env page tried apiKey startIdx selIdx exhAtSel
          rest combined true st1
      | .ok gr =>
        match gr.error with
        | some msg =>
          if msg ≠ [] then
            let st2 := if isQuotaMsg msg then markKey apiKey st1 else st1
            urlLoop cfg env page tried apiKey startIdx selIdx exhAtSel
              rest combined true st2
          else
            urlLoop cfg env page tried apiKey startIdx selIdx exhAtSel
              rest (combined ++ filterLinks gr.items cfg.target) respErr st1
        | none =>
          urlLoop cfg env page tried apiKey startIdx selIdx exhAtSel
            rest (combined ++ filterLinks gr.items cfg.target) respErr st1

/-- Outcome of the credential-attempt loop of one page: an early
`return c.requestStore` (cancellation or an empty key pool), or the state
after the loop exits normally (by `break` on success or by `triedKeys`
reaching `maxTries`). -/
inductive AttemptOutcome where
  | abort (res : List Str) (st : RunSt)
  | cont (st : RunSt)

/-- State carried by an `AttemptOutcome`. -/
def AttemptOutcome.stOf : AttemptOutcome → RunSt
  | .abort _ st => st
  | .cont st => st

/-- The `for triedKeys < maxTries` loop.  The fuel argument equals
`maxTries - triedKeys`.  Each iteration checks `ctx.Err()`, selects a key
from the available pool by the time-derived index (`getRandomApiKey`), builds
the request set, runs the URL loop, and then: on a non-empty deduplicated
batch, stores it, marks the page successful and decrements the adaptive delay
(bounded by the `> 0.05` guard) when no `-d` override is set, and breaks;
on `respErr` increments `triedKeys`; otherwise counts a no-result page,
increments the adaptive delay when no override is set, and exits the loop
(`triedKeys = maxTries`). -/
def attemptLoop (cfg : Cfg) (env : Env) (ext : Str) (page startIdx : Nat) :
    Nat → Nat → RunSt → AttemptOutcome
  | 0, _tried, st => .cont st
  | fuel + 1, tried, st =>
    if cancelled env st.ckCtr then
      .abort st.requestStore (bumpCk st)
    else
      let st1 := bumpCk st
      let available := availableKeys cfg.apiKeys st1.exhaustedKeys
      if available = [] then .abort st1.requestStore st1
      else
        let selIdx := st1.selCtr
        let apiKey := available.getD (env.nano selIdx % available.length) []
        let st2 : RunSt := {st1 with selCtr := selIdx + 1}
        let reqs := buildRequests cfg ext apiKey startIdx
        match urlLoop cfg env page tried apiKey startIdx selIdx
            st1.exhaustedKeys reqs [] false st2 with
        | .abort res st' => .abort res st'
        | .cont combined respErr st' =>
          let combined := uniqueStrings combined
          if combined ≠ [] then .cont (successSt cfg combined st')
          else if respErr then
            attemptLoop cfg env ext page startIdx fuel (tried + 1) st'
          else .cont (emptyPageSt cfg st')

/-- The `for page < c.pages` loop.  The fuel argument equals
`c.pages - page` (clamped at zero).  Each iteration checks `ctx.Err()`, runs
the attempt loop with start offset `page*10 + 1`, and stops the whole intent
when the page found no results; otherwise it clears `resultsFound` and
advances the page. -/
def pageLoop (cfg : Cfg) (env : Env) (ext : Str) :
    Nat → Nat → RunSt → List Str × RunSt
  | 0, _page, st => (st.requestStore, st)
  | fuel + 1, page, st =>
    if cancelled env st.ckCtr then
      (st.requestStore, bumpCk st)
    else
      let st1 := bumpCk st
      let startIdx := page * 10 + 1
      match attemptLoop cfg env ext page startIdx cfg.apiKeys.length 0 st1 with
      | .abort res st' => (res, st')
      | .cont st' =>
        if st'.resultsFound = false then (st'.requestStore, st')
        else pageLoop cfg env ext fuel (page + 1) (clearRF st')

/-- The per-run reset at the top of `dorkRun`: `requestStore`, the counters
and `resultsFound` start afresh. -/
def runReset (st : RunSt) : RunSt :=
  {st with requestStore := [], requestCounter := 0, noResultCounter := 0,
           resultsFound := false}

/-- Model of `dorkRun`: reset the per-run fields, normalize the page count
(`0` means `10`), and run the page loop.  The returned list is the
accumulated `requestStore` (a nil and an empty slice are both the empty
list). -/
def dorkRun (cfg : Cfg) (ext : Str) (env : Env) (st : RunSt) :
    List Str × RunSt :=
  pageLoop cfg env ext (pagesN cfg).toNat 0 (runReset st)

/-! ## The multi-target loop (`readDomainsFile`) and the attack wrappers -/

/-- Model of `hostOf`: extract the host part of a URL, retrying with an
`http://` scheme when the raw string has none (simplified model of
`url.Parse`'s host field for the scheme-plus-host-plus-path shapes the
engine produces). -/
def hostOfM (raw : Str) : Str :=
  if isPrefixOfL (str "http://") raw then
    (raw.drop 7).takeWhile (fun c => c ≠ '/')
  else if isPrefixOfL (str "https://") raw then
    (raw.drop 8).takeWhile (fun c => c ≠ '/')
  else raw.takeWhile (fun c => c ≠ '/')

/-- The extension list `extensionAttack` derives from the `-e` flag.  The
`fileExists` branch is outside the pure model (no filesystem); the
comma-separated and single-value paths are modeled. -/
def extsOf (extension : Str) : List Str :=
  if containsL (str ",") extension then
    ((splitChar ',' extension).map trimL).filter (fun s => s ≠ [])
  else if extension ≠ [] then [trimL extension] else []

/-- The per-extension loop of `extensionAttack`: each iteration observes the
cancellation signal (the `select` on `ctx.Done()`) and aborts discarding the
accumulated links, otherwise runs `dorkRun` with the extension argument and
collects non-empty results. -/
def extLoop (cfg : Cfg) (env : Env) :
    List Str → RunSt → List Str → List Str × RunSt
  | [], st, all => (all, st)
  | e :: rest, st, all =>
    if cancelled env st.ckCtr then ([], bumpCk st)
    else
      let st1 := bumpCk st
      let (res, st') := dorkRun cfg e env st1
      extLoop cfg env rest st' (if res ≠ [] then all ++ res else all)

/-- Model of `extensionAttack` (non-file extension list): loop over the
extensions, deduplicate the union. -/
def extensionAttackM (cfg : Cfg) (env : Env) (st : RunSt) :
    List Str × RunSt :=
  let (all, st') := extLoop cfg env (extsOf cfg.extension) st []
  (uniqueStrings all, st')

/-- Model of `dictionaryAttack`: ensure `inUrl` is built, then run the core
loop.  The handed-off result list is returned. -/
def dictionaryAttackM (cfg : Cfg) (env : Env) (st : RunSt) :
    List Str × RunSt :=
  let cfg' := if cfg.inUrl = [] then {cfg with inUrl := buildInurlQuery cfg.dictionary} else cfg
  dorkRun cfg' [] env st

/-- Model of `subdomainAttack`: run the core loop, then reduce the links to
their sorted unique hosts. -/
def subdomainAttackM (cfg : Cfg) (env : Env) (st : RunSt) :
    List Str × RunSt :=
  let (res, st') := dorkRun cfg [] env st
  (sortStrings (uniqueStrings ((res.map hostOfM).filter (fun h => h ≠ []))), st')

/-- Model of `contentsAttack` on the single-value path (the file path is
outside the pure model): build the `intext` clause, then run the core loop. -/
def contentsAttackM (cfg : Cfg) (env : Env) (st : RunSt) :
    List Str × RunSt :=
  let cfg' := {cfg with inFile := buildContentsQuery cfg.contents}
  dorkRun cfg' [] env st

/-- Whether one of the per-target branches of `readDomainsFile` applies. -/
def hasBranch (cfg : Cfg) : Bool :=
  cfg.dork ≠ [] || cfg.extension ≠ [] || cfg.dictionary ≠ [] ||
  cfg.subdomainMode || cfg.contents ≠ []

/-- The per-target dispatch of `readDomainsFile`, in source order: custom
dork, extension, dictionary, subdomain, contents. -/
def runTargetM (cfg : Cfg) (env : Env) (st : RunSt) : List Str × RunSt :=
  if cfg.dork ≠ [] then dorkRun cfg [] env st
  else if cfg.extension ≠ [] then extensionAttackM cfg env st
  else if cfg.dictionary ≠ [] then dictionaryAttackM cfg env st
  else if cfg.subdomainMode then subdomainAttackM cfg env st
  else if cfg.contents ≠ [] then contentsAttackM cfg env st
  else ([], st)

/-- Ghost record of one processed target: the state the target's run started
from (the `c2 := *c` copy), the result handed to the Output Sink, and the
state when the target's run finished. -/
structure TargetRun where
  target : Str
  output : List Str
  start : RunSt
  final : RunSt
  deriving DecidableEq

/-- The Go statement `c2 := *c` copies every `Config` field by value — in
particular `dynamicDelay` — while `exhaustedKeys` is a map and the copy
shares the same map reference.  So the per-target starting state takes every
value field from the outer state `base` and only the exhausted set (and the
ghost event counters, which merely number events of the single shared
timeline) from the previous iteration. -/
def copyForTarget (base prev : RunSt) : RunSt :=
  {base with exhaustedKeys := prev.exhaustedKeys,
             callCtr := prev.callCtr, selCtr := prev.selCtr,
             ckCtr := prev.ckCtr, calls := prev.calls}

/-- Result of `readDomainsFile`: the processed targets, the final shared
state, and whether the loop returned a cancellation error. -/
structure DomRes where
  runs : List TargetRun
  shared : RunSt
  canceled : Bool

/-- Model of `readDomainsFile`: for each line, observe the cancellation
signal, skip blank targets, copy the config/state for the target
(`c2 := *c`), dispatch on the mode, and re-observe the cancellation signal
after the attack when a branch ran. -/
def readDomainsFileM (cfg : Cfg) (env : Env) (base : RunSt) :
    List Str → RunSt → List TargetRun → DomRes
  | [], cur, acc => ⟨acc, cur, false⟩
  | line :: rest, cur, acc =>
    if cancelled env cur.ckCtr then ⟨acc, bumpCk cur, true⟩
    else
      let cur1 := bumpCk cur
      let target := trimL line
      if target = [] then readDomainsFileM cfg env base rest cur1 acc
      else
        let st0 := copyForTarget base cur1
        let cfg' := {cfg with target := target}
        let res := runTargetM cfg' env st0
        let acc' := acc ++ [⟨target, res.1, st0, res.2⟩]
        if hasBranch cfg' then
          if cancelled env res.2.ckCtr then ⟨acc', bumpCk res.2, true⟩
          else readDomainsFileM cfg env base rest (bumpCk res.2) acc'
        else readDomainsFileM cfg env base rest res.2 acc'

/-! ## Lemmas about deduplication and sorting -/

theorem mem_of_mem_uniqueAux {x : Str} :
    ∀ {seen l : List Str}, x ∈ uniqueAux seen l → x ∈ l
  | _, [], h => by simp [uniqueAux] at h
  | seen, s :: rest, h => by
    simp only [uniqueAux] at h
    split_ifs at h with h1 h2
    · exact List.mem_cons_of_mem _ (mem_of_mem_uniqueAux h)
    · exact List.mem_cons_of_mem _ (mem_of_mem_uniqueAux h)
    · rcases List.mem_cons.mp h with h | h
      · exact h ▸ List.mem_cons_self _ _
      · exact List.mem_cons_of_mem _ (mem_of_mem_uniqueAux h)

theorem not_seen_of_mem_uniqueAux {x : Str} :
    ∀ {seen l : List Str}, x ∈ uniqueAux seen l → x ∉ seen
  | _, [], h => by simp [uniqueAux] at h
  | seen, s :: rest, h => by
    simp only [uniqueAux] at h
    split_ifs at h with h1 h2
    · exact not_seen_of_mem_uniqueAux h
    · exact not_seen_of_mem_uniqueAux h
    · rcases List.mem_cons.mp h with h | h
      · exact h ▸ h2
      · intro hx
        exact not_seen_of_mem_uniqueAux h (List.mem_cons_of_mem _ hx)

theorem ne_nil_of_mem_uniqueAux {x : Str} :
    ∀ {seen l : List Str}, x ∈ uniqueAux seen l → x ≠ []
  | _, [], h => by simp [uniqueAux] at h
  | seen, s :: rest, h => by
    simp only [uniqueAux] at h
    split_ifs at h with h1 h2
    · exact ne_nil_of_mem_uniqueAux h
    · exact ne_nil_of_mem_uniqueAux h
    · rcases List.mem_cons.mp h with h | h
      · exact h ▸ h1
      · exact ne_nil_of_mem_uniqueAux h

theorem uniqueAux_nodup : ∀ (seen l : List Str), (uniqueAux seen l).Nodup
  | _, [] => by simp [uniqueAux]
  | seen, s :: rest => by
    simp only [uniqueAux]
    split_ifs with h1 h2
    · exact uniqueAux_nodup seen rest
    · exact uniqueAux_nodup seen rest
    · refine List.nodup_cons.mpr ⟨fun hs => ?_, uniqueAux_nodup (s :: seen) rest⟩
      exact not_seen_of_mem_uniqueAux hs (List.mem_cons_self _ _)

theorem mem_uniqueAux_of_mem {x : Str} :
    ∀ (seen : List Str) {l : List Str},
      x ∈ l → x ≠ [] → x ∈ seen ∨ x ∈ uniqueAux seen l
  | seen, s :: rest, h, hx => by
    simp only [uniqueAux]
    rcases List.mem_cons.mp h with rfl | h
    · split_ifs with h1 h2
      · exact absurd h1 hx
      · exact Or.inl h2
      · exact Or.inr (List.mem_cons_self _ _)
    · split_ifs with h1 h2
      · exact mem_uniqueAux_of_mem seen h hx
      · exact mem_uniqueAux_of_mem seen h hx
      · rcases mem_uniqueAux_of_mem (s :: seen) h hx with hs | hs
        · rcases List.mem_cons.mp hs with rfl | hs
          · exact Or.inr (List.mem_cons_self _ _)
          · exact Or.inl hs
        · exact Or.inr (List.mem_cons_of_mem _ hs)

theorem uniqueStrings_nodup (l : List Str) : (uniqueStrings l).Nodup :=
  uniqueAux_nodup [] l

theorem mem_of_mem_uniqueStrings {x : Str} {l : List Str}
    (h : x ∈ uniqueStrings l) : x ∈ l :=
  mem_of_mem_uniqueAux h

theorem ne_nil_of_mem_uniqueStrings {x : Str} {l : List Str}
    (h : x ∈ uniqueStrings l) : x ≠ [] :=
  ne_nil_of_mem_uniqueAux h

theorem mem_uniqueStrings_of_mem {x : Str} {l : List Str}
    (h : x ∈ l) (hx : x ≠ []) : x ∈ uniqueStrings l := by
  rcases mem_uniqueAux_of_mem [] h hx with hs | hs
  · simp at hs
  · exact hs

theorem ne_nil_of_uniqueStrings_ne_nil {l : List Str}
    (h : uniqueStrings l ≠ []) : l ≠ [] := by
  intro hl
  exact h (by simp [hl, uniqueStrings, uniqueAux])

theorem mem_insertSorted {t s : Str} :
    ∀ {l : List Str}, t ∈ insertSorted s l ↔ t = s ∨ t ∈ l
  | [] => by simp [insertSorted]
  | u :: rest => by
    simp only [insertSorted]
    split_ifs with h1
    · simp
    · simp only [List.mem_cons, mem_insertSorted (l := rest)]
      tauto

theorem mem_sortStrings {t : Str} :
    ∀ {l : List Str}, t ∈ sortStrings l ↔ t ∈ l
  | [] => Iff.rfl
  | s :: rest => by
    simp only [sortStrings, mem_insertSorted, List.mem_cons,
      mem_sortStrings (l := rest)]

/-! ## Claim C2: the Link Filter -/

/-- The `keepLink` predicate unfolded into its three source checks. -/
theorem keepLink_eq_true_iff {t l : Str} :
    keepLink t l = true ↔
      l ≠ [] ∧ containsL (lowerL t) (lowerL l) = true ∧
        containsL (str "google") (lowerL l) = false := by
  unfold keepLink
  split_ifs with h1 h2 h3 <;> simp_all

/-- Claim C2 (corrected form): the Link Filter's output has no duplicates, and
every retained entry is the percent-decoding (`urlDecodeLikeSed`) of some raw
input link that is non-empty, contains the target case-insensitively, and does
not match the provider marker `google` case-insensitively — the three checks
are applied to the raw link before decoding. -/
theorem filterLinks_filtered_decoded_nodup (items : List Str) (t : Str) :
    (filterLinks items t).Nodup ∧
    ∀ e ∈ filterLinks items t, ∃ l ∈ items,
      l ≠ [] ∧ containsL (lowerL t) (lowerL l) = true ∧
      containsL (str "google") (lowerL l) = false ∧ e = urlDecodeLikeSed l := by
  constructor
  · exact uniqueStrings_nodup _
  · intro e he
    have hm := mem_of_mem_uniqueStrings he
    rcases List.mem_map.mp hm with ⟨l, hl, rfl⟩
    rcases List.mem_filter.mp hl with ⟨hli, hkeep⟩
    rcases keepLink_eq_true_iff.mp hkeep with ⟨h1, h2, h3⟩
    exact ⟨l, hli, h1, h2, h3, rfl⟩

/-- Claim C2 as stated fails: the target/marker checks run on the raw link but
the returned entry is the decoded link.  With target `z+z`, the raw link
`xz+zy` passes the checks yet decodes to `xz zy`, which no longer contains the
target; and `http://go%6Fgle.com/z+z` passes the raw marker check yet decodes
to a link whose host is `google.com`. -/
theorem filterLinks_claim_cex :
    filterLinks [str "xz+zy", str "http://go%6Fgle.com/z+z"] (str "z+z")
      = [str "xz zy", str "http://google.com/z z"] ∧
    ¬ (∀ e ∈ filterLinks [str "xz+zy", str "http://go%6Fgle.com/z+z"] (str "z+z"),
        containsL (lowerL (str "z+z")) (lowerL e) = true ∧
        containsL (str "google") (lowerL e) = false) := by
  constructor
  · decide
  · decide

/-! ## Claim C8: the exclusion clause -/

theorem foldl_append_entries (sep : Str) :
    ∀ (rest : List Str) (init : Str),
      rest.foldl (fun b e => b ++ sep ++ e) init
        = init ++ rest.flatMap (fun e => sep ++ e)
  | [], init => by simp
  | e :: rest, init => by
    simp only [List.foldl_cons, List.flatMap_cons,
      foldl_append_entries sep rest (init ++ sep ++ e)]
    simp [List.append_assoc]

/-- Every request `dorkRun` builds goes through `buildOne ∘ withExcl`. -/
theorem buildRequests_shape (cfg : Cfg) (ext apiKey : Str) (startIdx : Nat) :
    ∀ r ∈ buildRequests cfg ext apiKey startIdx,
      ∃ core, r = buildOne apiKey startIdx (withExcl cfg core) := by
  intro r hr
  unfold buildRequests at hr
  split_ifs at hr
  all_goals
    simp only [List.mem_cons, List.not_mem_nil, or_false, false_or,
      List.flatMap_cons, List.flatMap_nil, List.map_cons, List.map_nil,
      List.cons_append, List.nil_append, List.append_nil, List.mem_append,
      List.mem_flatMap] at hr
  all_goals
    first
    | (rcases hr with rfl | rfl | rfl | rfl | rfl | rfl | rfl | rfl <;>
        exact ⟨_, rfl⟩)
    | (rcases hr with rfl | rfl | rfl | rfl <;> exact ⟨_, rfl⟩)
    | (rcases hr with rfl | rfl | rfl <;> exact ⟨_, rfl⟩)
    | (rcases hr with rfl | rfl <;> exact ⟨_, rfl⟩)
    | (rcases hr with rfl; exact ⟨_, rfl⟩)
    | (obtain ⟨t0, _ht0, hrt⟩ := hr
       split_ifs at hrt
       · simp at hrt
       · simp only [List.mem_cons, List.not_mem_nil, or_false] at hrt
         first
         | (rcases hrt with rfl | rfl | rfl <;> exact ⟨_, rfl⟩)
         | (rcases hrt with rfl; exact ⟨_, rfl⟩))

/-- Claim C8: for a non-empty parts list the built exclusion clause is
`-site:<first>` followed by `+-<entry>` for each later entry in input order,
and (when the intent carries exclusions) every request query built by
`dorkRun` is some core clause with `" " ++ excludeTargets` appended. -/
theorem buildExclusions_format_and_applied (p : Str) (rest : List Str)
    (cfg : Cfg) (ext apiKey : Str) (startIdx : Nat)
    (hE : cfg.excludeTargets ≠ []) :
    buildExclusionsFromParts (p :: rest)
      = str "-site:" ++ p ++ rest.flatMap (fun e => str "+-" ++ e)
    ∧ ∀ r ∈ buildRequests cfg ext apiKey startIdx,
        ∃ core, r.q = trimL (core ++ str " " ++ cfg.excludeTargets) := by
  constructor
  · show rest.foldl (fun b e => b ++ str "+-" ++ e) (str "-site:" ++ p) = _
    rw [foldl_append_entries (str "+-") rest (str "-site:" ++ p)]
  · intro r hr
    rcases buildRequests_shape cfg ext apiKey startIdx r hr with ⟨core, rfl⟩
    exact ⟨core, by simp [buildOne, withExcl, hE]⟩

/-! ## Claims C9 and C10: the Output Sink -/

theorem readLinesM_append (a b : List Str) :
    readLinesM (a ++ b) = readLinesM a ++ readLinesM b := by
  simp [readLinesM]

theorem mem_of_mem_appendNew {u : Str} :
    ∀ {l ex : List Str}, u ∈ appendNew l ex → u ∈ l
  | [], _, h => by simp [appendNew] at h
  | v :: rest, ex, h => by
    simp only [appendNew] at h
    split_ifs at h with h1
    · exact List.mem_cons_of_mem _ (mem_of_mem_appendNew h)
    · rcases List.mem_cons.mp h with rfl | h
      · exact List.mem_cons_self _ _
      · exact List.mem_cons_of_mem _ (mem_of_mem_appendNew h)

theorem mem_appendNew_of_mem {u : Str} :
    ∀ {l ex : List Str}, u ∈ l → u ∉ ex → u ∈ appendNew l ex
  | v :: rest, ex, h, hex => by
    simp only [appendNew]
    by_cases huv : u = v
    · subst huv
      simp only [if_neg hex]
      exact List.mem_cons_self _ _
    · rcases List.mem_cons.mp h with rfl | h
      · exact absurd rfl huv
      · split_ifs with h1
        · exact mem_appendNew_of_mem h hex
        · refine List.mem_cons_of_mem _ (mem_appendNew_of_mem h ?_)
          intro hc
          rcases List.mem_cons.mp hc with rfl | hc
          · exact huv rfl
          · exact hex hc

theorem appendNew_eq_nil :
    ∀ {l ex : List Str}, (∀ u ∈ l, u ∈ ex) → appendNew l ex = []
  | [], _, _ => rfl
  | v :: rest, ex, h => by
    simp only [appendNew, if_pos (h v (List.mem_cons_self _ _))]
    exact appendNew_eq_nil (fun u hu => h u (List.mem_cons_of_mem _ hu))

/-- Claim C9 (corrected form): for result sets whose entries are
trim-invariant (no leading or trailing whitespace — true of every URL the
engine produces), a second run of the Output Sink with the same result set
against the file produced by the first run appends nothing. -/
theorem outputSink_idempotent_trimmed (urls : List Str) (p : String)
    (file : List Str) (h : ∀ u ∈ urls, trimL u = u) :
    (outputOrPrintUnique urls p
        (outputOrPrintUnique urls p file true).file true).file
      = (outputOrPrintUnique urls p file true).file := by
  by_cases hp : p = ""
  · simp [outputOrPrintUnique, hp]
  · simp only [outputOrPrintUnique, if_neg hp, if_neg (by simp : ¬(true = false))]
    have hnil : appendNew (sortStrings (uniqueStrings urls))
        (readLinesM (file ++ appendNew (sortStrings (uniqueStrings urls))
          (readLinesM file))) = [] := by
      apply appendNew_eq_nil
      intro u hu
      have hu' : u ∈ uniqueStrings urls := mem_sortStrings.mp hu
      have hurls : u ∈ urls := mem_of_mem_uniqueStrings hu'
      have hune : u ≠ [] := ne_nil_of_mem_uniqueStrings hu'
      rw [readLinesM_append]
      by_cases hex : u ∈ readLinesM file
      · exact List.mem_append_left _ hex
      · refine List.mem_append_right _ ?_
        have hA : u ∈ appendNew (sortStrings (uniqueStrings urls))
            (readLinesM file) := mem_appendNew_of_mem hu hex
        refine List.mem_filter.mpr ⟨?_, by simpa using hune⟩
        exact List.mem_map.mpr ⟨u, hA, h u hurls⟩
    rw [hnil, List.append_nil]

/-- Claim C9 as stated fails for entries carrying surrounding whitespace:
`readLines` trims the lines it reads back, so the line `" x"` written by the
first run is not recognized on the second run and is appended again. -/
theorem outputSink_idempotence_cex :
    (outputOrPrintUnique [str " x"] "o"
        (outputOrPrintUnique [str " x"] "o" [] true).file true).file
      = [str " x", str " x"] ∧
    ¬ ([str " x", str " x"] : List Str).Nodup := by
  constructor
  · decide
  · decide

/-- Claim C10: when the output file cannot be opened for appending, the
Output Sink prints the sorted unique result lines to stdout, leaves the file
unchanged, and every non-empty result line appears in what is printed. -/
theorem outputSink_fallback_prints_all (urls : List Str) (p : String)
    (file : List Str) (hp : p ≠ "") :
    (outputOrPrintUnique urls p file false).printed
        = sortStrings (uniqueStrings urls)
    ∧ (outputOrPrintUnique urls p file false).file = file
    ∧ ∀ u ∈ urls, u ≠ [] →
        u ∈ (outputOrPrintUnique urls p file false).printed := by
  refine ⟨by simp [outputOrPrintUnique, hp], by simp [outputOrPrintUnique, hp], ?_⟩
  intro u hu hune
  simp only [outputOrPrintUnique, if_neg hp]
  exact mem_sortStrings.mpr (mem_uniqueStrings_of_mem hu hune)

/-! ## Trace invariants of the pagination/retry loop -/

section LoopLemmas

variable (cfg : Cfg) (env : Env)

/-- Generic trace invariant of the URL loop: a property holding for every
already-recorded call and for every call record the loop can append (any
transport/checkpoint counter and delay value, a checkpoint that passed, the
loop's fixed page, attempt, key and offsets) holds for every call in the
final state. -/
theorem urlLoop_calls_of {P : CallRec → Prop} (page tried : Nat) (apiKey : Str)
    (startIdx selIdx : Nat) (exhAtSel : List Str)
    (hnew : ∀ (k ck : Nat) (d : Int), cancelled env ck = false →
      P ⟨page, tried, apiKey, startIdx, k, selIdx, ck, d, exhAtSel⟩) :
    ∀ (reqs : List Req) (combined : List Str) (respErr : Bool) (st : RunSt),
      (∀ c ∈ st.calls, P c) →
      ∀ c ∈ (urlLoop cfg env page tried apiKey startIdx selIdx exhAtSel
          reqs combined respErr st).stOf.calls, P c
  | [], _, _, _st, hP => fun c hc => hP c hc
  | _u :: rest, combined, respErr, st, hP => by
    simp only [urlLoop]
    split_ifs with hcan
    · exact fun c hc => hP c hc
    · have hP1 : ∀ c ∈ (recordCall page tried apiKey startIdx selIdx
          exhAtSel st).calls, P c := by
        intro c hc
        rcases List.mem_append.mp hc with h | h
        · exact hP c h
        · rcases List.mem_cons.mp h with rfl | h
          · exact hnew st.callCtr st.ckCtr st.dynamicDelay (by simpa using hcan)
          · simp at h
      split
      · exact urlLoop_calls_of page tried apiKey startIdx selIdx exhAtSel hnew
          rest combined true _ hP1
      · split
        · split_ifs
          · exact urlLoop_calls_of page tried apiKey startIdx selIdx exhAtSel
              hnew rest combined true _ (fun c hc => hP1 c hc)
          · exact urlLoop_calls_of page tried apiKey startIdx selIdx exhAtSel
              hnew rest combined true _ hP1
          · exact urlLoop_calls_of page tried apiKey startIdx selIdx exhAtSel
              hnew rest _ respErr _ hP1
        · exact urlLoop_calls_of page tried apiKey startIdx selIdx exhAtSel
            hnew rest _ respErr _ hP1

end LoopLemmas

@[simp] theorem bumpCk_calls (st : RunSt) : (bumpCk st).calls = st.calls := rfl
@[simp] theorem bumpCk_exh (st : RunSt) :
    (bumpCk st).exhaustedKeys = st.exhaustedKeys := rfl
@[simp] theorem bumpCk_dyn (st : RunSt) :
    (bumpCk st).dynamicDelay = st.dynamicDelay := rfl
@[simp] theorem bumpCk_sel (st : RunSt) : (bumpCk st).selCtr = st.selCtr := rfl
@[simp] theorem bumpCk_rf (st : RunSt) :
    (bumpCk st).resultsFound = st.resultsFound := rfl
@[simp] theorem bumpCk_store (st : RunSt) :
    (bumpCk st).requestStore = st.requestStore := rfl

@[simp] theorem markKey_calls (k : Str) (st : RunSt) :
    (markKey k st).calls = st.calls := rfl
@[simp] theorem markKey_dyn (k : Str) (st : RunSt) :
    (markKey k st).dynamicDelay = st.dynamicDelay := rfl
@[simp] theorem markKey_sel (k : Str) (st : RunSt) :
    (markKey k st).selCtr = st.selCtr := rfl

@[simp] theorem successSt_calls (cfg : Cfg) (combined : List Str) (st : RunSt) :
    (successSt cfg combined st).calls = st.calls := rfl
@[simp] theorem successSt_exh (cfg : Cfg) (combined : List Str) (st : RunSt) :
    (successSt cfg combined st).exhaustedKeys = st.exhaustedKeys := rfl
@[simp] theorem successSt_sel (cfg : Cfg) (combined : List Str) (st : RunSt) :
    (successSt cfg combined st).selCtr = st.selCtr := rfl
@[simp] theorem successSt_rf (cfg : Cfg) (combined : List Str) (st : RunSt) :
    (successSt cfg combined st).resultsFound = true := rfl
@[simp] theorem successSt_store (cfg : Cfg) (combined : List Str) (st : RunSt) :
    (successSt cfg combined st).requestStore
      = st.requestStore ++ combined := rfl
@[simp] theorem successSt_dyn (cfg : Cfg) (combined : List Str) (st : RunSt) :
    (successSt cfg combined st).dynamicDelay
      = if cfg.delay = 0 ∧ st.dynamicDelay > 1 then st.dynamicDelay - 1
        else st.dynamicDelay := rfl

@[simp] theorem emptyPageSt_calls (cfg : Cfg) (st : RunSt) :
    (emptyPageSt cfg st).calls = st.calls := rfl
@[simp] theorem emptyPageSt_exh (cfg : Cfg) (st : RunSt) :
    (emptyPageSt cfg st).exhaustedKeys = st.exhaustedKeys := rfl
@[simp] theorem emptyPageSt_sel (cfg : Cfg) (st : RunSt) :
    (emptyPageSt cfg st).selCtr = st.selCtr := rfl
@[simp] theorem emptyPageSt_rf (cfg : Cfg) (st : RunSt) :
    (emptyPageSt cfg st).resultsFound = st.resultsFound := rfl
@[simp] theorem emptyPageSt_store (cfg : Cfg) (st : RunSt) :
    (emptyPageSt cfg st).requestStore = st.requestStore := rfl
@[simp] theorem emptyPageSt_dyn (cfg : Cfg) (st : RunSt) :
    (emptyPageSt cfg st).dynamicDelay
      = if cfg.delay = 0 then st.dynamicDelay + 2 else st.dynamicDelay := rfl

@[simp] theorem clearRF_calls (st : RunSt) : (clearRF st).calls = st.calls := rfl
@[simp] theorem clearRF_exh (st : RunSt) :
    (clearRF st).exhaustedKeys = st.exhaustedKeys := rfl
@[simp] theorem clearRF_dyn (st : RunSt) :
    (clearRF st).dynamicDelay = st.dynamicDelay := rfl
@[simp] theorem clearRF_rf (st : RunSt) : (clearRF st).resultsFound = false := rfl
@[simp] theorem clearRF_store (st : RunSt) :
    (clearRF st).requestStore = st.requestStore := rfl

@[simp] theorem stOf_abort (res : List Str) (st : RunSt) :
    (UrlOutcome.abort res st).stOf = st := rfl
@[simp] theorem stOf_cont (combined : List Str) (respErr : Bool) (st : RunSt) :
    (UrlOutcome.cont combined respErr st).stOf = st := rfl
@[simp] theorem stOfA_abort (res : List Str) (st : RunSt) :
    (AttemptOutcome.abort res st).stOf = st := rfl
@[simp] theorem stOfA_cont (st : RunSt) : (AttemptOutcome.cont st).stOf = st := rfl

/-- An in-range `getD` is a member. -/
theorem getD_mem_of_lt {α : Type} [DecidableEq α] {l : List α} {n : Nat}
    {d : α} (h : n < l.length) : l.getD n d ∈ l := by
  rw [List.getD_eq_getElem?_getD, List.getElem?_eq_getElem h]
  exact List.getElem_mem h

section LoopLemmas2

variable (cfg : Cfg) (env : Env)

/-- The URL loop never changes `dynamicDelay`, `selCtr`, `resultsFound` or
`requestStore`. -/
theorem urlLoop_fields (page tried : Nat) (apiKey : Str)
    (startIdx selIdx : Nat) (exhAtSel : List Str) :
    ∀ (reqs : List Req) (combined : List Str) (respErr : Bool) (st : RunSt),
      (urlLoop cfg env page tried apiKey startIdx selIdx exhAtSel
          reqs combined respErr st).stOf.dynamicDelay = st.dynamicDelay ∧
      (urlLoop cfg env page tried apiKey startIdx selIdx exhAtSel
          reqs combined respErr st).stOf.selCtr = st.selCtr ∧
      (urlLoop cfg env page tried apiKey startIdx selIdx exhAtSel
          reqs combined respErr st).stOf.resultsFound = st.resultsFound ∧
      (urlLoop cfg env page tried apiKey startIdx selIdx exhAtSel
          reqs combined respErr st).stOf.requestStore = st.requestStore
  | [], _, _, _st => ⟨rfl, rfl, rfl, rfl⟩
  | _u :: rest, combined, respErr, st => by
    simp only [urlLoop]
    split_ifs with hcan
    · exact ⟨rfl, rfl, rfl, rfl⟩
    · split
      · exact urlLoop_fields page tried apiKey startIdx selIdx exhAtSel
          rest combined true _
      · split
        · split_ifs
          · exact urlLoop_fields page tried apiKey startIdx selIdx exhAtSel
              rest combined true _
          · exact urlLoop_fields page tried apiKey startIdx selIdx exhAtSel
              rest combined true _
          · exact urlLoop_fields page tried apiKey startIdx selIdx exhAtSel
              rest _ respErr _
        · exact urlLoop_fields page tried apiKey startIdx selIdx exhAtSel
            rest _ respErr _

/-- Calls already recorded stay in the trace through the URL loop. -/
theorem urlLoop_calls_mono (page tried : Nat) (apiKey : Str)
    (startIdx selIdx : Nat) (exhAtSel : List Str) :
    ∀ (reqs : List Req) (combined : List Str) (respErr : Bool) (st : RunSt),
      ∀ c ∈ st.calls,
        c ∈ (urlLoop cfg env page tried apiKey startIdx selIdx exhAtSel
          reqs combined respErr st).stOf.calls
  | [], _, _, _st => fun _c hc => hc
  | _u :: rest, combined, respErr, st => by
    simp only [urlLoop]
    split_ifs with hcan
    · exact fun _c hc => hc
    · have hmem : ∀ c ∈ st.calls,
          c ∈ (recordCall page tried apiKey startIdx selIdx exhAtSel st).calls :=
        fun c hc => List.mem_append_left _ hc
      split
      · exact fun c hc => urlLoop_calls_mono page tried apiKey startIdx selIdx
          exhAtSel rest combined true _ c (hmem c hc)
      · split
        · split_ifs
          · exact fun c hc => urlLoop_calls_mono page tried apiKey startIdx selIdx
              exhAtSel rest combined true _ c (hmem c hc)
          · exact fun c hc => urlLoop_calls_mono page tried apiKey startIdx selIdx
              exhAtSel rest combined true _ c (hmem c hc)
          · exact fun c hc => urlLoop_calls_mono page tried apiKey startIdx selIdx
              exhAtSel rest _ respErr _ c (hmem c hc)
        · exact fun c hc => urlLoop_calls_mono page tried apiKey startIdx selIdx
            exhAtSel rest _ respErr _ c (hmem c hc)

/-- Marking only inserts: membership in the exhausted set is preserved. -/
theorem mem_markExhausted_of_mem {x k : Str} {l : List Str} (h : x ∈ l) :
    x ∈ markExhausted l k := by
  unfold markExhausted
  split_ifs with h1
  · exact h
  · exact List.mem_append_left _ h

/-- The marked key is in the marked set. -/
theorem self_mem_markExhausted (k : Str) (l : List Str) :
    k ∈ markExhausted l k := by
  unfold markExhausted
  split_ifs with h1
  · exact h1
  · exact List.mem_append_right _ (List.mem_cons_self _ _)

/-- The exhausted set only grows through the URL loop. -/
theorem urlLoop_exh_mono (page tried : Nat) (apiKey : Str)
    (startIdx selIdx : Nat) (exhAtSel : List Str) :
    ∀ (reqs : List Req) (combined : List Str) (respErr : Bool) (st : RunSt),
      ∀ x ∈ st.exhaustedKeys,
        x ∈ (urlLoop cfg env page tried apiKey startIdx selIdx exhAtSel
          reqs combined respErr st).stOf.exhaustedKeys
  | [], _, _, _st => fun _x hx => hx
  | _u :: rest, combined, respErr, st => by
    simp only [urlLoop]
    split_ifs with hcan
    · exact fun _x hx => hx
    · split
      · exact fun x hx => urlLoop_exh_mono page tried apiKey startIdx selIdx
          exhAtSel rest combined true _ x hx
      · split
        · split_ifs
          · exact fun x hx => urlLoop_exh_mono page tried apiKey startIdx selIdx
              exhAtSel rest combined true _ x (mem_markExhausted_of_mem hx)
          · exact fun x hx => urlLoop_exh_mono page tried apiKey startIdx selIdx
              exhAtSel rest combined true _ x hx
          · exact fun x hx => urlLoop_exh_mono page tried apiKey startIdx selIdx
              exhAtSel rest _ respErr _ x hx
        · exact fun x hx => urlLoop_exh_mono page tried apiKey startIdx selIdx
            exhAtSel rest _ respErr _ x hx

/-- Delay values seen in the trace: every call recorded by the URL loop
carries the loop's (unchanging) `dynamicDelay` value, so any predicate on
that value extends over the trace. -/
theorem urlLoop_calls_dynQ {Q : Int → Prop} (page tried : Nat) (apiKey : Str)
    (startIdx selIdx : Nat) (exhAtSel : List Str) :
    ∀ (reqs : List Req) (combined : List Str) (respErr : Bool) (st : RunSt),
      Q st.dynamicDelay → (∀ c ∈ st.calls, Q c.dyn) →
      ∀ c ∈ (urlLoop cfg env page tried apiKey startIdx selIdx exhAtSel
          reqs combined respErr st).stOf.calls, Q c.dyn
  | [], _, _, _st, _hQ, hP => fun c hc => hP c hc
  | _u :: rest, combined, respErr, st, hQ, hP => by
    simp only [urlLoop]
    split_ifs with hcan
    · exact fun c hc => hP c hc
    · have hP1 : ∀ c ∈ (recordCall page tried apiKey startIdx selIdx
          exhAtSel st).calls, Q c.dyn := by
        intro c hc
        rcases List.mem_append.mp hc with h | h
        · exact hP c h
        · rcases List.mem_cons.mp h with rfl | h
          · exact hQ
          · simp at h
      split
      · exact urlLoop_calls_dynQ page tried apiKey startIdx selIdx exhAtSel
          rest combined true _ hQ hP1
      · split
        · split_ifs
          · exact urlLoop_calls_dynQ page tried apiKey startIdx selIdx exhAtSel
              rest combined true _ hQ (fun c hc => hP1 c hc)
          · exact urlLoop_calls_dynQ page tried apiKey startIdx selIdx exhAtSel
              rest combined true _ hQ hP1
          · exact urlLoop_calls_dynQ page tried apiKey startIdx selIdx exhAtSel
              rest _ respErr _ hQ hP1
        · exact urlLoop_calls_dynQ page tried apiKey startIdx selIdx exhAtSel
            rest _ respErr _ hQ hP1

/-- If the URL loop completes normally having collected links beyond what it
was handed, some call of the final trace (on this page) produced a non-empty
filtered batch. -/
theorem urlLoop_success (page tried : Nat) (apiKey : Str)
    (startIdx selIdx : Nat) (exhAtSel : List Str) :
    ∀ (reqs : List Req) (combined : List Str) (respErr : Bool) (st : RunSt)
      (combined' : List Str) (respErr' : Bool) (st' : RunSt),
      urlLoop cfg env page tried apiKey startIdx selIdx exhAtSel
          reqs combined respErr st = .cont combined' respErr' st' →
      combined' ≠ [] →
      combined ≠ [] ∨ ∃ c ∈ st'.calls, c.page = page ∧
        filterLinks (respLinks (env.resp c.idx)) cfg.target ≠ []
  | [], combined, respErr, st, combined', respErr', st', heq, hne => by
    simp only [urlLoop, UrlOutcome.cont.injEq] at heq
    exact Or.inl (heq.1 ▸ hne)
  | _u :: rest, combined, respErr, st, combined', respErr', st', heq, hne => by
    have hitems : ∀ (gr : GoogleResponse),
        env.resp st.callCtr = .ok gr →
        respLinks (env.resp st.callCtr) = gr.items →
        urlLoop cfg env page tried apiKey startIdx selIdx exhAtSel
            rest (combined ++ filterLinks gr.items cfg.target) respErr
            (recordCall page tried apiKey startIdx selIdx exhAtSel st)
          = .cont combined' respErr' st' →
        combined ≠ [] ∨ ∃ c ∈ st'.calls, c.page = page ∧
          filterLinks (respLinks (env.resp c.idx)) cfg.target ≠ [] := by
      intro gr hresp hlinks heq'
      rcases urlLoop_success page tried apiKey startIdx selIdx exhAtSel
          rest _ respErr _ combined' respErr' st' heq' hne with h | h
      · by_cases hcnil : combined = []
        · subst hcnil
          simp only [List.nil_append] at h heq'
          refine Or.inr ?_
          have hmono := urlLoop_calls_mono cfg env page tried apiKey
            startIdx selIdx exhAtSel rest (filterLinks gr.items cfg.target)
            respErr (recordCall page tried apiKey startIdx selIdx exhAtSel st)
            ⟨page, tried, apiKey, startIdx, st.callCtr, selIdx, st.ckCtr,
              st.dynamicDelay, exhAtSel⟩
            (by simp [recordCall])
          rw [heq'] at hmono
          simp only [stOf_cont] at hmono
          exact ⟨_, hmono, rfl, by simpa [hlinks] using h⟩
        · exact Or.inl hcnil
      · exact Or.inr h
    simp only [urlLoop] at heq
    split_ifs at heq with hcan
    split at heq
    · exact (urlLoop_success page tried apiKey startIdx selIdx exhAtSel
        rest combined true _ combined' respErr' st' heq hne).imp_left id
    · rename_i gr hresp
      split at heq
      · rename_i msg herr
        split_ifs at heq with hmsg hquota
        · exact (urlLoop_success page tried apiKey startIdx selIdx exhAtSel
            rest combined true _ combined' respErr' st' heq hne).imp_left id
        · exact (urlLoop_success page tried apiKey startIdx selIdx exhAtSel
            rest combined true _ combined' respErr' st' heq hne).imp_left id
        · -- error object with empty message: links are collected
          exact hitems gr hresp
            (by simp_all [respLinks, hresp, herr]) heq
      · -- no error object: links are collected
        rename_i herr
        exact hitems gr hresp (by simp [respLinks, hresp, herr]) heq

/-- Equation form of `urlLoop_calls_of`. -/
theorem urlLoop_calls_of_eq {P : CallRec → Prop} {page tried : Nat}
    {apiKey : Str} {startIdx selIdx : Nat} {exhAtSel : List Str}
    {reqs : List Req} {combined : List Str} {respErr : Bool} {st : RunSt}
    {out : UrlOutcome}
    (heq : urlLoop cfg env page tried apiKey startIdx selIdx exhAtSel
      reqs combined respErr st = out)
    (hnew : ∀ (k ck : Nat) (d : Int), cancelled env ck = false →
      P ⟨page, tried, apiKey, startIdx, k, selIdx, ck, d, exhAtSel⟩)
    (hP : ∀ c ∈ st.calls, P c) :
    ∀ c ∈ out.stOf.calls, P c :=
  heq ▸ urlLoop_calls_of cfg env page tried apiKey startIdx selIdx exhAtSel
    hnew reqs combined respErr st hP

/-- Equation form of `urlLoop_fields`. -/
theorem urlLoop_fields_eq {page tried : Nat} {apiKey : Str}
    {startIdx selIdx : Nat} {exhAtSel : List Str} {reqs : List Req}
    {combined : List Str} {respErr : Bool} {st : RunSt} {out : UrlOutcome}
    (heq : urlLoop cfg env page tried apiKey startIdx selIdx exhAtSel
      reqs combined respErr st = out) :
    out.stOf.dynamicDelay = st.dynamicDelay ∧ out.stOf.selCtr = st.selCtr ∧
    out.stOf.resultsFound = st.resultsFound ∧
    out.stOf.requestStore = st.requestStore :=
  heq ▸ urlLoop_fields cfg env page tried apiKey startIdx selIdx exhAtSel
    reqs combined respErr st

/-- Equation form of `urlLoop_calls_mono`. -/
theorem urlLoop_calls_mono_eq {page tried : Nat} {apiKey : Str}
    {startIdx selIdx : Nat} {exhAtSel : List Str} {reqs : List Req}
    {combined : List Str} {respErr : Bool} {st : RunSt} {out : UrlOutcome}
    (heq : urlLoop cfg env page tried apiKey startIdx selIdx exhAtSel
      reqs combined respErr st = out) :
    ∀ c ∈ st.calls, c ∈ out.stOf.calls :=
  heq ▸ urlLoop_calls_mono cfg env page tried apiKey startIdx selIdx exhAtSel
    reqs combined respErr st

/-- Equation form of `urlLoop_exh_mono`. -/
theorem urlLoop_exh_mono_eq {page tried : Nat} {apiKey : Str}
    {startIdx selIdx : Nat} {exhAtSel : List Str} {reqs : List Req}
    {combined : List Str} {respErr : Bool} {st : RunSt} {out : UrlOutcome}
    (heq : urlLoop cfg env page tried apiKey startIdx selIdx exhAtSel
      reqs combined respErr st = out) :
    ∀ x ∈ st.exhaustedKeys, x ∈ out.stOf.exhaustedKeys :=
  heq ▸ urlLoop_exh_mono cfg env page tried apiKey startIdx selIdx exhAtSel
    reqs combined respErr st

/-- Equation form of `urlLoop_calls_dynQ`. -/
theorem urlLoop_calls_dynQ_eq {Q : Int → Prop} {page tried : Nat}
    {apiKey : Str} {startIdx selIdx : Nat} {exhAtSel : List Str}
    {reqs : List Req} {combined : List Str} {respErr : Bool} {st : RunSt}
    {out : UrlOutcome}
    (heq : urlLoop cfg env page tried apiKey startIdx selIdx exhAtSel
      reqs combined respErr st = out)
    (hQ : Q st.dynamicDelay) (hP : ∀ c ∈ st.calls, Q c.dyn) :
    ∀ c ∈ out.stOf.calls, Q c.dyn :=
  heq ▸ urlLoop_calls_dynQ cfg env page tried apiKey startIdx selIdx exhAtSel
    reqs combined respErr st hQ hP

/-! Trace invariants at the credential-attempt level. -/

/-- Well-formedness of a trace record for claims C1 and C5: the page index is
under the page bound, the attempt index is under the pool size, the start
offset is the page's 1-based offset, and the checkpoint guarding the call
observed no cancellation. -/
abbrev TraceOK (N : Nat) (c : CallRec) : Prop :=
  c.page < N ∧ c.attempt < cfg.apiKeys.length ∧
  c.start = c.page * 10 + 1 ∧ cancelled env c.ck = false

theorem attemptLoop_traceOK (ext : Str) (N page startIdx : Nat)
    (hpage : page < N) (hstart : startIdx = page * 10 + 1) :
    ∀ (fuel tried : Nat) (st : RunSt), fuel + tried ≤ cfg.apiKeys.length →
      (∀ c ∈ st.calls, TraceOK cfg env N c) →
      ∀ c ∈ (attemptLoop cfg env ext page startIdx fuel tried st).stOf.calls,
        TraceOK cfg env N c
  | 0, _tried, _st, _hb, hP => fun c hc => hP c hc
  | fuel + 1, tried, st, hb, hP => by
    simp only [attemptLoop]
    split_ifs with hcan havail
    · exact fun c hc => hP c hc
    · exact fun c hc => hP c hc
    · split
      · rename_i res st' heq
        exact urlLoop_calls_of_eq cfg env heq
          (fun k ck d hck =>
            ⟨hpage, show tried < cfg.apiKeys.length by omega, hstart, hck⟩)
          (fun c hc => hP c hc)
      · rename_i combined respErr st' heq
        have hst' : ∀ c ∈ st'.calls, TraceOK cfg env N c :=
          urlLoop_calls_of_eq cfg env heq
            (fun k ck d hck =>
              ⟨hpage, show tried < cfg.apiKeys.length by omega, hstart, hck⟩)
            (fun c hc => hP c hc)
        split_ifs with hcne
        · exact fun c hc => hst' c hc
        · exact attemptLoop_traceOK ext N page startIdx hpage hstart
            fuel (tried + 1) st' (by omega) hst'
        · exact fun c hc => hst' c hc

theorem attemptLoop_dynQ {Q : Int → Prop} (ext : Str) (page startIdx : Nat)
    (hsucc : ∀ d, Q d → Q (if cfg.delay = 0 ∧ d > 1 then d - 1 else d))
    (hempty : ∀ d, Q d → Q (if cfg.delay = 0 then d + 2 else d)) :
    ∀ (fuel tried : Nat) (st : RunSt),
      Q st.dynamicDelay → (∀ c ∈ st.calls, Q c.dyn) →
      Q (attemptLoop cfg env ext page startIdx fuel tried st).stOf.dynamicDelay ∧
      ∀ c ∈ (attemptLoop cfg env ext page startIdx fuel tried st).stOf.calls,
        Q c.dyn
  | 0, _tried, _st, hQ, hP => ⟨hQ, fun c hc => hP c hc⟩
  | fuel + 1, tried, st, hQ, hP => by
    simp only [attemptLoop]
    split_ifs with hcan havail
    · exact ⟨hQ, fun c hc => hP c hc⟩
    · exact ⟨hQ, fun c hc => hP c hc⟩
    · split
      · rename_i res st' heq
        have hf := (urlLoop_fields_eq cfg env heq).1
        simp only [stOf_abort] at hf
        have hcalls := urlLoop_calls_dynQ_eq cfg env heq hQ
          (fun c hc => hP c hc)
        exact ⟨by rw [stOfA_abort, hf]; exact hQ, by simpa using hcalls⟩
      · rename_i combined respErr st' heq
        have hf := (urlLoop_fields_eq cfg env heq).1
        simp only [stOf_cont] at hf
        have hQ' : Q st'.dynamicDelay := by rw [hf]; exact hQ
        have hcalls : ∀ c ∈ st'.calls, Q c.dyn := by
          simpa using urlLoop_calls_dynQ_eq cfg env heq hQ (fun c hc => hP c hc)
        split_ifs with hcne
        · refine ⟨?_, fun c hc => hcalls c hc⟩
          simpa using hsucc st'.dynamicDelay hQ'
        · exact attemptLoop_dynQ ext page startIdx hsucc hempty
            fuel (tried + 1) st' hQ' hcalls
        · refine ⟨?_, fun c hc => hcalls c hc⟩
          simpa using hempty st'.dynamicDelay hQ'

theorem attemptLoop_calls_mono (ext : Str) (page startIdx : Nat) :
    ∀ (fuel tried : Nat) (st : RunSt), ∀ c ∈ st.calls,
      c ∈ (attemptLoop cfg env ext page startIdx fuel tried st).stOf.calls
  | 0, _tried, _st => fun _c hc => hc
  | fuel + 1, tried, st => by
    simp only [attemptLoop]
    split_ifs with hcan havail
    · exact fun _c hc => hc
    · exact fun _c hc => hc
    · split
      · rename_i res st' heq
        exact fun c hc => by
          simpa using urlLoop_calls_mono_eq cfg env heq c hc
      · rename_i combined respErr st' heq
        have hm : ∀ c ∈ st.calls, c ∈ st'.calls := fun c hc => by
          simpa using urlLoop_calls_mono_eq cfg env heq c hc
        split_ifs with hcne
        · exact fun c hc => hm c hc
        · exact fun c hc => attemptLoop_calls_mono ext page startIdx
            fuel (tried + 1) st' c (hm c hc)
        · exact fun c hc => hm c hc

theorem attemptLoop_exh_mono (ext : Str) (page startIdx : Nat) :
    ∀ (fuel tried : Nat) (st : RunSt), ∀ x ∈ st.exhaustedKeys,
      x ∈ (attemptLoop cfg env ext page startIdx fuel tried st).stOf.exhaustedKeys
  | 0, _tried, _st => fun _x hx => hx
  | fuel + 1, tried, st => by
    simp only [attemptLoop]
    split_ifs with hcan havail
    · exact fun _x hx => hx
    · exact fun _x hx => hx
    · split
      · rename_i res st' heq
        exact fun x hx => by
          simpa using urlLoop_exh_mono_eq cfg env heq x hx
      · rename_i combined respErr st' heq
        have hm : ∀ x ∈ st.exhaustedKeys, x ∈ st'.exhaustedKeys := fun x hx => by
          simpa using urlLoop_exh_mono_eq cfg env heq x hx
        split_ifs with hcne
        · exact fun x hx => hm x hx
        · exact fun x hx => attemptLoop_exh_mono ext page startIdx
            fuel (tried + 1) st' x (hm x hx)
        · exact fun x hx => hm x hx

/-- Every call recorded during the attempt loop of a page carries that page
index. -/
theorem attemptLoop_page_new (ext : Str) (page startIdx : Nat) :
    ∀ (fuel tried : Nat) (st : RunSt),
      ∀ c ∈ (attemptLoop cfg env ext page startIdx fuel tried st).stOf.calls,
        c ∈ st.calls ∨ c.page = page
  | 0, _tried, _st => fun _c hc => Or.inl hc
  | fuel + 1, tried, st => by
    simp only [attemptLoop]
    split_ifs with hcan havail
    · exact fun _c hc => Or.inl hc
    · exact fun _c hc => Or.inl hc
    · split
      · rename_i res st' heq
        exact urlLoop_calls_of_eq cfg env
          (P := fun c => c ∈ st.calls ∨ c.page = page) heq
          (fun k ck d _hck => Or.inr rfl) (fun c hc => Or.inl hc)
      · rename_i combined respErr st' heq
        have hst' : ∀ c ∈ st'.calls, c ∈ st.calls ∨ c.page = page :=
          urlLoop_calls_of_eq cfg env
            (P := fun c => c ∈ st.calls ∨ c.page = page) heq
            (fun k ck d _hck => Or.inr rfl) (fun c hc => Or.inl hc)
        split_ifs with hcne
        · exact fun c hc => hst' c hc
        · intro c hc
          rcases attemptLoop_page_new ext page startIdx
              fuel (tried + 1) st' c hc with h | h
          · exact hst' c h
          · exact Or.inr h
        · exact fun c hc => hst' c hc

/-- A normally-completed attempt loop that flags the page successful recorded
a page call whose response yields a non-empty filtered batch. -/
theorem attemptLoop_success (ext : Str) (page startIdx : Nat) :
    ∀ (fuel tried : Nat) (st st' : RunSt),
      attemptLoop cfg env ext page startIdx fuel tried st = .cont st' →
      st.resultsFound = false → st'.resultsFound = true →
      ∃ c ∈ st'.calls, c.page = page ∧
        filterLinks (respLinks (env.resp c.idx)) cfg.target ≠ []
  | 0, _tried, st, st', heq, hrf, hrf' => by
    simp only [attemptLoop, AttemptOutcome.cont.injEq] at heq
    rw [← heq] at hrf'
    rw [hrf] at hrf'
    cases hrf'
  | fuel + 1, tried, st, st', heq, hrf, hrf' => by
    simp only [attemptLoop] at heq
    split_ifs at heq with hcan havail
    split at heq
    · simp at heq
    · rename_i combined respErr stU hequrl
      have hfields := urlLoop_fields_eq cfg env hequrl
      simp only [stOf_cont] at hfields
      split_ifs at heq with hcne
      · -- success branch
        simp only [AttemptOutcome.cont.injEq] at heq
        subst heq
        have hcomb : combined ≠ [] := by
          intro h
          exact hcne (by simp [h, uniqueStrings, uniqueAux])
        rcases urlLoop_success cfg env page tried _ startIdx _ _
            _ [] false _ combined respErr stU hequrl hcomb with h | h
        · exact absurd rfl h
        · simpa using h
      · -- respErr: retry with the next credential
        exact attemptLoop_success ext page startIdx fuel (tried + 1) stU st'
          heq (by rw [hfields.2.2.1]; exact hrf) hrf'
      · -- empty, no error: the loop ends without success
        simp only [AttemptOutcome.cont.injEq] at heq
        rw [← heq] at hrf'
        simp only [emptyPageSt_rf, hfields.2.2.1, bumpCk_rf, hrf] at hrf'
        cases hrf'

/-- Equation form of `attemptLoop_traceOK`. -/
theorem attemptLoop_traceOK_eq {ext : Str} {N page startIdx : Nat}
    {fuel tried : Nat} {st : RunSt} {out : AttemptOutcome}
    (heq : attemptLoop cfg env ext page startIdx fuel tried st = out)
    (hpage : page < N) (hstart : startIdx = page * 10 + 1)
    (hb : fuel + tried ≤ cfg.apiKeys.length)
    (hP : ∀ c ∈ st.calls, TraceOK cfg env N c) :
    ∀ c ∈ out.stOf.calls, TraceOK cfg env N c :=
  heq ▸ attemptLoop_traceOK cfg env ext N page startIdx hpage hstart
    fuel tried st hb hP

/-- Equation form of `attemptLoop_dynQ`. -/
theorem attemptLoop_dynQ_eq {Q : Int → Prop} {ext : Str}
    {page startIdx fuel tried : Nat} {st : RunSt} {out : AttemptOutcome}
    (heq : attemptLoop cfg env ext page startIdx fuel tried st = out)
    (hsucc : ∀ d, Q d → Q (if cfg.delay = 0 ∧ d > 1 then d - 1 else d))
    (hempty : ∀ d, Q d → Q (if cfg.delay = 0 then d + 2 else d))
    (hQ : Q st.dynamicDelay) (hP : ∀ c ∈ st.calls, Q c.dyn) :
    Q out.stOf.dynamicDelay ∧ ∀ c ∈ out.stOf.calls, Q c.dyn :=
  heq ▸ attemptLoop_dynQ cfg env ext page startIdx hsucc hempty
    fuel tried st hQ hP

/-- Equation form of `attemptLoop_calls_mono`. -/
theorem attemptLoop_calls_mono_eq {ext : Str}
    {page startIdx fuel tried : Nat} {st : RunSt} {out : AttemptOutcome}
    (heq : attemptLoop cfg env ext page startIdx fuel tried st = out) :
    ∀ c ∈ st.calls, c ∈ out.stOf.calls :=
  heq ▸ attemptLoop_calls_mono cfg env ext page startIdx fuel tried st

/-- Equation form of `attemptLoop_exh_mono`. -/
theorem attemptLoop_exh_mono_eq {ext : Str}
    {page startIdx fuel tried : Nat} {st : RunSt} {out : AttemptOutcome}
    (heq : attemptLoop cfg env ext page startIdx fuel tried st = out) :
    ∀ x ∈ st.exhaustedKeys, x ∈ out.stOf.exhaustedKeys :=
  heq ▸ attemptLoop_exh_mono cfg env ext page startIdx fuel tried st

/-- Equation form of `attemptLoop_page_new`. -/
theorem attemptLoop_page_new_eq {ext : Str}
    {page startIdx fuel tried : Nat} {st : RunSt} {out : AttemptOutcome}
    (heq : attemptLoop cfg env ext page startIdx fuel tried st = out) :
    ∀ c ∈ out.stOf.calls, c ∈ st.calls ∨ c.page = page :=
  heq ▸ attemptLoop_page_new cfg env ext page startIdx fuel tried st

/-! Trace invariants at the page level. -/

theorem pageLoop_traceOK (ext : Str) (N : Nat) :
    ∀ (fuel page : Nat) (st : RunSt), page + fuel ≤ N →
      (∀ c ∈ st.calls, TraceOK cfg env N c) →
      ∀ c ∈ (pageLoop cfg env ext fuel page st).2.calls, TraceOK cfg env N c
  | 0, _page, _st, _hb, hP => fun c hc => hP c hc
  | fuel + 1, page, st, hb, hP => by
    simp only [pageLoop]
    split_ifs with hcan
    · exact fun c hc => hP c hc
    · split
      · rename_i res st' heq
        have h := attemptLoop_traceOK_eq cfg env heq
          (show page < N by omega) rfl (by omega) (fun c hc => hP c hc)
        simpa using h
      · rename_i st' heq
        have hst' : ∀ c ∈ st'.calls, TraceOK cfg env N c := by
          simpa using attemptLoop_traceOK_eq cfg env heq
            (show page < N by omega) rfl (by omega) (fun c hc => hP c hc)
        split_ifs with hrf
        · exact fun c hc => hst' c hc
        · exact pageLoop_traceOK ext N fuel (page + 1) (clearRF st')
            (by omega) (fun c hc => hst' c hc)

theorem pageLoop_dynQ {Q : Int → Prop} (ext : Str)
    (hsucc : ∀ d, Q d → Q (if cfg.delay = 0 ∧ d > 1 then d - 1 else d))
    (hempty : ∀ d, Q d → Q (if cfg.delay = 0 then d + 2 else d)) :
    ∀ (fuel page : Nat) (st : RunSt),
      Q st.dynamicDelay → (∀ c ∈ st.calls, Q c.dyn) →
      Q (pageLoop cfg env ext fuel page st).2.dynamicDelay ∧
      ∀ c ∈ (pageLoop cfg env ext fuel page st).2.calls, Q c.dyn
  | 0, _page, _st, hQ, hP => ⟨hQ, fun c hc => hP c hc⟩
  | fuel + 1, page, st, hQ, hP => by
    simp only [pageLoop]
    split_ifs with hcan
    · exact ⟨hQ, fun c hc => hP c hc⟩
    · split
      · rename_i res st' heq
        have h := attemptLoop_dynQ_eq cfg env heq hsucc hempty hQ
          (fun c hc => hP c hc)
        exact ⟨by simpa using h.1, by simpa using h.2⟩
      · rename_i st' heq
        have h := attemptLoop_dynQ_eq cfg env heq hsucc hempty hQ
          (fun c hc => hP c hc)
        have hQ' : Q st'.dynamicDelay := by simpa using h.1
        have hP' : ∀ c ∈ st'.calls, Q c.dyn := by simpa using h.2
        split_ifs with hrf
        · exact ⟨hQ', fun c hc => hP' c hc⟩
        · exact pageLoop_dynQ ext hsucc hempty fuel (page + 1) (clearRF st')
            hQ' (fun c hc => hP' c hc)

theorem pageLoop_exh_mono (ext : Str) :
    ∀ (fuel page : Nat) (st : RunSt), ∀ x ∈ st.exhaustedKeys,
      x ∈ (pageLoop cfg env ext fuel page st).2.exhaustedKeys
  | 0, _page, _st => fun _x hx => hx
  | fuel + 1, page, st => by
    simp only [pageLoop]
    split_ifs with hcan
    · exact fun _x hx => hx
    · split
      · rename_i res st' heq
        exact fun x hx => by simpa using attemptLoop_exh_mono_eq cfg env heq x hx
      · rename_i st' heq
        have hm : ∀ x ∈ st.exhaustedKeys, x ∈ st'.exhaustedKeys := fun x hx => by
          simpa using attemptLoop_exh_mono_eq cfg env heq x hx
        split_ifs with hrf
        · exact fun x hx => hm x hx
        · exact fun x hx => pageLoop_exh_mono ext fuel (page + 1) (clearRF st')
            x (hm x hx)

/-- Pages advance only after a success: whenever the final trace holds a call
at a page above `p`, it also holds a call at page `p` whose response produced
a non-empty filtered batch. -/
theorem pageLoop_no_skip (ext : Str) :
    ∀ (fuel page : Nat) (st : RunSt),
      st.resultsFound = false →
      (∀ c ∈ st.calls, c.page < page) →
      (∀ p < page, ∃ c ∈ st.calls, c.page = p ∧
        filterLinks (respLinks (env.resp c.idx)) cfg.target ≠ []) →
      ∀ c ∈ (pageLoop cfg env ext fuel page st).2.calls, ∀ p < c.page,
        ∃ c' ∈ (pageLoop cfg env ext fuel page st).2.calls, c'.page = p ∧
          filterLinks (respLinks (env.resp c'.idx)) cfg.target ≠ []
  | 0, page, st, _hrf, ha, hb => by
    intro c hc p hp
    have := ha c hc
    exact hb p (by omega)
  | fuel + 1, page, st, hrf, ha, hb => by
    simp only [pageLoop]
    split_ifs with hcan
    · intro c hc p hp
      have := ha c hc
      exact hb p (by omega)
    · split
      · rename_i res st' heq
        intro c hc p hp
        simp only at hc
        have hpage : c.page ≤ page := by
          rcases attemptLoop_page_new_eq cfg env heq c (by simpa using hc) with h | h
          · have := ha c (by simpa using h)
            omega
          · omega
        rcases hb p (by omega) with ⟨c', hc', hcp, hlinks⟩
        have hc'' := attemptLoop_calls_mono_eq cfg env heq c' (by simpa using hc')
        exact ⟨c', by simpa using hc'', hcp, hlinks⟩
      · rename_i st' heq
        have ha' : ∀ c ∈ st'.calls, c.page ≤ page := by
          intro c hc
          rcases attemptLoop_page_new_eq cfg env heq c (by simpa using hc) with h | h
          · have := ha c (by simpa using h)
            omega
          · omega
        have hbmono : ∀ p < page, ∃ c ∈ st'.calls, c.page = p ∧
            filterLinks (respLinks (env.resp c.idx)) cfg.target ≠ [] := by
          intro p hp
          rcases hb p hp with ⟨c', hc', hcp, hlinks⟩
          have hc'' := attemptLoop_calls_mono_eq cfg env heq c' (by simpa using hc')
          exact ⟨c', by simpa using hc'', hcp, hlinks⟩
        split_ifs with hrf'
        · intro c hc p hp
          have := ha' c hc
          exact hbmono p (by omega)
        · have hsucc : st'.resultsFound = true := by
            cases h : st'.resultsFound
            · exact absurd h hrf'
            · rfl
          have hwit := attemptLoop_success cfg env ext page (page * 10 + 1)
            cfg.apiKeys.length 0 (bumpCk st) st' heq (by simpa using hrf) hsucc
          refine pageLoop_no_skip ext fuel (page + 1) (clearRF st')
            (by simp) ?_ ?_
          · intro c hc
            have := ha' c (by simpa using hc)
            omega
          · intro p hp
            rcases Nat.lt_succ_iff_lt_or_eq.mp hp with h | rfl
            · rcases hbmono p h with ⟨c', hc', hcp, hlinks⟩
              exact ⟨c', by simpa using hc', hcp, hlinks⟩
            · rcases hwit with ⟨c', hc', hcp, hlinks⟩
              exact ⟨c', by simpa using hc', hcp, hlinks⟩

end LoopLemmas2

@[simp] theorem runReset_calls (st : RunSt) : (runReset st).calls = st.calls := rfl
@[simp] theorem runReset_exh (st : RunSt) :
    (runReset st).exhaustedKeys = st.exhaustedKeys := rfl
@[simp] theorem runReset_dyn (st : RunSt) :
    (runReset st).dynamicDelay = st.dynamicDelay := rfl
@[simp] theorem runReset_rf (st : RunSt) :
    (runReset st).resultsFound = false := rfl

/-- Whether a transport result is the quota-exhaustion signal: a parsed
response whose non-empty error message contains "quota" case-insensitively. -/
def isQuotaResp : TransportResult → Bool
  | .fail => false
  | .ok gr =>
    match gr.error with
    | some m => m ≠ [] && isQuotaMsg m
    | none => false

/-- The quota-handling invariant of a run state: selection counters of past
calls are in the past; a call that received the quota signal has its key in
the exhausted set; such a key is in the exhausted snapshot of every later
selection; and no selection ever returned a key of its own exhausted
snapshot. -/
structure Inv4 (env : Env) (st : RunSt) : Prop where
  sel_lt : ∀ c ∈ st.calls, c.sel < st.selCtr
  marked : ∀ c ∈ st.calls, isQuotaResp (env.resp c.idx) = true →
    c.key ∈ st.exhaustedKeys
  pair : ∀ c1 ∈ st.calls, ∀ c2 ∈ st.calls,
    isQuotaResp (env.resp c1.idx) = true → c1.sel < c2.sel →
    c1.key ∈ c2.exhAtSel
  avoid : ∀ c ∈ st.calls, c.key ∉ c.exhAtSel

section Inv4Lemmas

variable (cfg : Cfg) (env : Env)

theorem urlLoop_Inv4 (page tried : Nat) (apiKey : Str) (startIdx selIdx : Nat)
    (E0 : List Str) (hkey : apiKey ∉ E0) :
    ∀ (reqs : List Req) (combined : List Str) (respErr : Bool) (st : RunSt),
      st.selCtr = selIdx + 1 → Inv4 env st →
      (∀ c ∈ st.calls, isQuotaResp (env.resp c.idx) = true →
        c.sel < selIdx → c.key ∈ E0) →
      Inv4 env (urlLoop cfg env page tried apiKey startIdx selIdx E0
        reqs combined respErr st).stOf ∧
      (urlLoop cfg env page tried apiKey startIdx selIdx E0
        reqs combined respErr st).stOf.selCtr = selIdx + 1 ∧
      (∀ c ∈ (urlLoop cfg env page tried apiKey startIdx selIdx E0
          reqs combined respErr st).stOf.calls,
        isQuotaResp (env.resp c.idx) = true → c.sel < selIdx → c.key ∈ E0)
  | [], _, _, _st, hsel, hinv, hH => ⟨hinv, hsel, hH⟩
  | _u :: rest, combined, respErr, st, hsel, hinv, hH => by
    simp only [urlLoop]
    split_ifs with hcan
    · exact ⟨⟨hinv.sel_lt, hinv.marked, hinv.pair, hinv.avoid⟩, hsel, hH⟩
    · have hmemcase : ∀ c, c ∈ (recordCall page tried apiKey startIdx selIdx
          E0 st).calls → c ∈ st.calls ∨
          c = ⟨page, tried, apiKey, startIdx, st.callCtr, selIdx, st.ckCtr,
            st.dynamicDelay, E0⟩ := by
        intro c hc
        rcases List.mem_append.mp hc with h | h
        · exact Or.inl h
        · rcases List.mem_cons.mp h with rfl | h
          · exact Or.inr rfl
          · cases h
      have hsel_lt1 : ∀ c ∈ (recordCall page tried apiKey startIdx selIdx
          E0 st).calls, c.sel < st.selCtr := by
        intro c hc
        rcases hmemcase c hc with h | rfl
        · exact hinv.sel_lt c h
        · show selIdx < st.selCtr
          omega
      have hpair1 : ∀ c1 ∈ (recordCall page tried apiKey startIdx selIdx
          E0 st).calls, ∀ c2 ∈ (recordCall page tried apiKey startIdx selIdx
          E0 st).calls, isQuotaResp (env.resp c1.idx) = true →
          c1.sel < c2.sel → c1.key ∈ c2.exhAtSel := by
        intro c1 hc1 c2 hc2 hq hlt
        rcases hmemcase c1 hc1 with h1 | rfl
        · rcases hmemcase c2 hc2 with h2 | rfl
          · exact hinv.pair c1 h1 c2 h2 hq hlt
          · exact hH c1 h1 hq hlt
        · rcases hmemcase c2 hc2 with h2 | rfl
          · have := hinv.sel_lt c2 h2
            revert hlt
            show selIdx < c2.sel → _
            omega
          · revert hlt
            show selIdx < selIdx → _
            omega
      have havoid1 : ∀ c ∈ (recordCall page tried apiKey startIdx selIdx
          E0 st).calls, c.key ∉ c.exhAtSel := by
        intro c hc
        rcases hmemcase c hc with h | rfl
        · exact hinv.avoid c h
        · exact hkey
      have hH1 : ∀ c ∈ (recordCall page tried apiKey startIdx selIdx
          E0 st).calls, isQuotaResp (env.resp c.idx) = true →
          c.sel < selIdx → c.key ∈ E0 := by
        intro c hc hq hlt
        rcases hmemcase c hc with h | rfl
        · exact hH c h hq hlt
        · revert hlt
          show selIdx < selIdx → _
          omega
      have hInvNQ : isQuotaResp (env.resp st.callCtr) = false →
          Inv4 env (recordCall page tried apiKey startIdx selIdx E0 st) := by
        intro hnq
        refine ⟨hsel_lt1, ?_, hpair1, havoid1⟩
        intro c hc hq
        rcases hmemcase c hc with h | rfl
        · exact hinv.marked c h hq
        · rw [show (⟨page, tried, apiKey, startIdx, st.callCtr, selIdx,
            st.ckCtr, st.dynamicDelay, E0⟩ : CallRec).idx = st.callCtr
            from rfl, hnq] at hq
          cases hq
      have hInvQ : isQuotaResp (env.resp st.callCtr) = true →
          Inv4 env (markKey apiKey (recordCall page tried apiKey startIdx
            selIdx E0 st)) := by
        intro _hq
        refine ⟨hsel_lt1, ?_, hpair1, havoid1⟩
        intro c hc hq
        rcases hmemcase c hc with h | rfl
        · exact mem_markExhausted_of_mem (hinv.marked c h hq)
        · exact self_mem_markExhausted _ _
      split
      · rename_i hresp
        exact urlLoop_Inv4 page tried apiKey startIdx selIdx E0 hkey
          rest combined true _ hsel
          (hInvNQ (by simp [isQuotaResp, hresp])) hH1
      · rename_i gr hresp
        split
        · rename_i msg herr
          split_ifs with hmsg hquota
          · exact urlLoop_Inv4 page tried apiKey startIdx selIdx E0 hkey
              rest combined true _ hsel
              (hInvQ (by simp [isQuotaResp, hresp, herr, hmsg, hquota])) hH1
          · exact urlLoop_Inv4 page tried apiKey startIdx selIdx E0 hkey
              rest combined true _ hsel
              (hInvNQ (by simp [isQuotaResp, hresp, herr, hquota])) hH1
          · exact urlLoop_Inv4 page tried apiKey startIdx selIdx E0 hkey
              rest _ respErr _ hsel
              (hInvNQ (by simp [isQuotaResp, hresp, herr, hmsg])) hH1
        · rename_i herr
          exact urlLoop_Inv4 page tried apiKey startIdx selIdx E0 hkey
            rest _ respErr _ hsel
            (hInvNQ (by simp [isQuotaResp, hresp, herr])) hH1

/-- Equation form of `urlLoop_Inv4` (only the invariant part). -/
theorem urlLoop_Inv4_eq {page tried : Nat} {apiKey : Str}
    {startIdx selIdx : Nat} {E0 : List Str} {reqs : List Req}
    {combined : List Str} {respErr : Bool} {st : RunSt} {out : UrlOutcome}
    (heq : urlLoop cfg env page tried apiKey startIdx selIdx E0
      reqs combined respErr st = out)
    (hkey : apiKey ∉ E0) (hsel : st.selCtr = selIdx + 1) (hinv : Inv4 env st)
    (hH : ∀ c ∈ st.calls, isQuotaResp (env.resp c.idx) = true →
      c.sel < selIdx → c.key ∈ E0) :
    Inv4 env out.stOf :=
  (heq ▸ urlLoop_Inv4 cfg env page tried apiKey startIdx selIdx E0 hkey
    reqs combined respErr st hsel hinv hH).1

theorem attemptLoop_Inv4 (ext : Str) (page startIdx : Nat) :
    ∀ (fuel tried : Nat) (st : RunSt), Inv4 env st →
      Inv4 env (attemptLoop cfg env ext page startIdx fuel tried st).stOf
  | 0, _tried, _st, hinv => hinv
  | fuel + 1, tried, st, hinv => by
    simp only [attemptLoop]
    split_ifs with hcan havail
    · exact ⟨hinv.sel_lt, hinv.marked, hinv.pair, hinv.avoid⟩
    · exact ⟨hinv.sel_lt, hinv.marked, hinv.pair, hinv.avoid⟩
    · have hkey : (availableKeys cfg.apiKeys (bumpCk st).exhaustedKeys).getD
          (env.nano (bumpCk st).selCtr %
            (availableKeys cfg.apiKeys (bumpCk st).exhaustedKeys).length) []
          ∉ (bumpCk st).exhaustedKeys := by
        have hlen : 0 < (availableKeys cfg.apiKeys
            (bumpCk st).exhaustedKeys).length :=
          List.length_pos.mpr havail
        have hmem := getD_mem_of_lt (l := availableKeys cfg.apiKeys
          (bumpCk st).exhaustedKeys)
          (n := env.nano (bumpCk st).selCtr % (availableKeys cfg.apiKeys
            (bumpCk st).exhaustedKeys).length) (d := [])
          (Nat.mod_lt _ hlen)
        have := List.of_mem_filter hmem
        simpa using this
      have hinv2 : Inv4 env
          {bumpCk st with selCtr := (bumpCk st).selCtr + 1} := by
        refine ⟨?_, hinv.marked, hinv.pair, hinv.avoid⟩
        intro c hc
        have := hinv.sel_lt c hc
        show c.sel < st.selCtr + 1
        omega
      have hH : ∀ c ∈ ({bumpCk st with
          selCtr := (bumpCk st).selCtr + 1} : RunSt).calls,
          isQuotaResp (env.resp c.idx) = true →
          c.sel < (bumpCk st).selCtr → c.key ∈ (bumpCk st).exhaustedKeys :=
        fun c hc hq _hlt => hinv.marked c hc hq
      split
      · rename_i res st' heq
        exact urlLoop_Inv4_eq cfg env heq hkey rfl hinv2 hH
      · rename_i combined respErr st' heq
        have hinv' : Inv4 env st' := by
          have := urlLoop_Inv4_eq cfg env heq hkey rfl hinv2 hH
          simpa using this
        split_ifs with hcne
        · exact ⟨hinv'.sel_lt, hinv'.marked, hinv'.pair, hinv'.avoid⟩
        · exact attemptLoop_Inv4 ext page startIdx fuel (tried + 1) st' hinv'
        · exact ⟨hinv'.sel_lt, hinv'.marked, hinv'.pair, hinv'.avoid⟩

theorem pageLoop_Inv4 (ext : Str) :
    ∀ (fuel page : Nat) (st : RunSt), Inv4 env st →
      Inv4 env (pageLoop cfg env ext fuel page st).2
  | 0, _page, _st, hinv => hinv
  | fuel + 1, page, st, hinv => by
    simp only [pageLoop]
    split_ifs with hcan
    · exact ⟨hinv.sel_lt, hinv.marked, hinv.pair, hinv.avoid⟩
    · split
      · rename_i res st' heq
        have h := attemptLoop_Inv4 cfg env ext page (page * 10 + 1)
          cfg.apiKeys.length 0 (bumpCk st)
          ⟨hinv.sel_lt, hinv.marked, hinv.pair, hinv.avoid⟩
        rw [heq] at h
        exact ⟨h.sel_lt, h.marked, h.pair, h.avoid⟩
      · rename_i st' heq
        have h := attemptLoop_Inv4 cfg env ext page (page * 10 + 1)
          cfg.apiKeys.length 0 (bumpCk st)
          ⟨hinv.sel_lt, hinv.marked, hinv.pair, hinv.avoid⟩
        rw [heq] at h
        have hinv' : Inv4 env st' := ⟨h.sel_lt, h.marked, h.pair, h.avoid⟩
        split_ifs with hrf
        · exact hinv'
        · exact pageLoop_Inv4 ext fuel (page + 1) (clearRF st')
            ⟨hinv'.sel_lt, hinv'.marked, hinv'.pair, hinv'.avoid⟩

end Inv4Lemmas

/-- Every call of a run's trace satisfies the trace well-formedness bounds. -/
theorem dorkRun_traceOK (cfg : Cfg) (env : Env) (ext : Str) (st : RunSt)
    (h0 : st.calls = []) :
    ∀ c ∈ (dorkRun cfg ext env st).2.calls,
      TraceOK cfg env (pagesN cfg).toNat c := by
  intro c hc
  refine pageLoop_traceOK cfg env ext (pagesN cfg).toNat (pagesN cfg).toNat 0
    (runReset st) (by omega) ?_ c hc
  intro c' hc'
  rw [runReset_calls, h0] at hc'
  cases hc'

/-- Claim C1 (corrected form): a run issues pages only with indices below the
page count (`10` when the flag was not given), every attempt index stays
below the pool size, and every call of page `p` uses the 1-based start offset
`p*10 + 1`.  The "at most one attempt per credential per page" part of the
original claim is false (see the counterexample): selection is random with
replacement among the non-exhausted keys. -/
theorem dorkRun_page_and_attempt_bounds (cfg : Cfg) (ext : Str) (env : Env)
    (st : RunSt) (h0 : st.calls = []) :
    ∀ c ∈ (dorkRun cfg ext env st).2.calls,
      c.page < (pagesN cfg).toNat ∧ c.attempt < cfg.apiKeys.length ∧
      c.start = c.page * 10 + 1 := by
  intro c hc
  have h := dorkRun_traceOK cfg env ext st h0 c hc
  exact ⟨h.1, h.2.1, h.2.2.1⟩

/-- Claim C5 (corrected form): once the cancellation signal is set (from
checkpoint `n` on), no transport call is issued at or after that checkpoint —
the run returns the accumulated store without further pages or calls.  The
"deduplicated" part of the original claim is false (see the counterexample):
the store is deduplicated per page batch but not across pages. -/
theorem dorkRun_cancel_no_late_calls (cfg : Cfg) (ext : Str) (env : Env)
    (st : RunSt) (n : Nat) (hcan : env.cancelAt = some n)
    (h0 : st.calls = []) :
    ∀ c ∈ (dorkRun cfg ext env st).2.calls, c.ck < n := by
  intro c hc
  have h := (dorkRun_traceOK cfg env ext st h0 c hc).2.2.2
  simp only [cancelled, hcan, decide_eq_false_iff_not, Nat.not_le] at h
  exact h

/-- Claim C6: a page on which no attempt yields filtered links ends the whole
intent — equivalently, whenever the trace reaches a page beyond `p`, page `p`
had a call whose response produced a non-empty filtered batch.  The results
already accumulated are what the run returns. -/
theorem dorkRun_empty_page_terminates (cfg : Cfg) (ext : Str) (env : Env)
    (st : RunSt) (h0 : st.calls = []) :
    ∀ c ∈ (dorkRun cfg ext env st).2.calls, ∀ p < c.page,
      ∃ c' ∈ (dorkRun cfg ext env st).2.calls, c'.page = p ∧
        filterLinks (respLinks (env.resp c'.idx)) cfg.target ≠ [] := by
  intro c hc p hp
  refine pageLoop_no_skip cfg env ext (pagesN cfg).toNat 0 (runReset st)
    (runReset_rf st) ?_ ?_ c hc p hp
  · intro c' hc'
    rw [runReset_calls, h0] at hc'
    cases hc'
  · intro p' hp'
    omega

/-- Claim C7: throughout a run the adaptive delay stays non-negative (both
the final state value and the value recorded at every transport call), and
when a fixed `-d` override is configured (non-zero) the adaptive value never
changes at all. -/
theorem dorkRun_dynamicDelay_nonneg_and_fixed (cfg : Cfg) (ext : Str)
    (env : Env) (st : RunSt) (h0 : st.calls = [])
    (hd : 0 ≤ st.dynamicDelay) :
    (0 ≤ (dorkRun cfg ext env st).2.dynamicDelay ∧
      ∀ c ∈ (dorkRun cfg ext env st).2.calls, 0 ≤ c.dyn) ∧
    (cfg.delay ≠ 0 →
      (dorkRun cfg ext env st).2.dynamicDelay = st.dynamicDelay ∧
      ∀ c ∈ (dorkRun cfg ext env st).2.calls, c.dyn = st.dynamicDelay) := by
  have hvac : ∀ (Q : Int → Prop), ∀ c ∈ (runReset st).calls, Q c.dyn := by
    intro Q c hc
    rw [runReset_calls, h0] at hc
    cases hc
  constructor
  · exact pageLoop_dynQ cfg env (Q := fun d => 0 ≤ d) ext
      (fun d hQ => by split_ifs with hcase <;> omega)
      (fun d hQ => by split_ifs <;> omega)
      (pagesN cfg).toNat 0 (runReset st) hd (hvac (fun d => 0 ≤ d))
  · intro hne
    exact pageLoop_dynQ cfg env (Q := fun d => d = st.dynamicDelay) ext
      (fun d hQ => by
        split_ifs with hcase
        · exact absurd hcase.1 hne
        · exact hQ)
      (fun d hQ => by
        split_ifs with hcase
        · exact absurd hcase hne
        · exact hQ)
      (pagesN cfg).toNat 0 (runReset st) rfl (hvac (fun d => d = st.dynamicDelay))

/-- Claim C4: in every run, a call that received the quota signal has its key
in the final Exhausted Set (idempotent map insertion); the set only grows;
no selection ever returns a key that was in its exhausted snapshot; and once
a key receives the quota signal it is in the exhausted snapshot of every
later selection, so every later selection returns a different key. -/
theorem dorkRun_quota_marking (cfg : Cfg) (ext : Str) (env : Env)
    (st : RunSt) (h0 : st.calls = []) :
    (∀ c ∈ (dorkRun cfg ext env st).2.calls,
        isQuotaResp (env.resp c.idx) = true →
        c.key ∈ (dorkRun cfg ext env st).2.exhaustedKeys) ∧
    (∀ x ∈ st.exhaustedKeys, x ∈ (dorkRun cfg ext env st).2.exhaustedKeys) ∧
    (∀ c ∈ (dorkRun cfg ext env st).2.calls, c.key ∉ c.exhAtSel) ∧
    (∀ c1 ∈ (dorkRun cfg ext env st).2.calls,
      ∀ c2 ∈ (dorkRun cfg ext env st).2.calls,
        isQuotaResp (env.resp c1.idx) = true → c1.sel < c2.sel →
        c1.key ∈ c2.exhAtSel ∧ c2.key ≠ c1.key) := by
  have hinv0 : Inv4 env (runReset st) := by
    refine ⟨?_, ?_, ?_, ?_⟩ <;> intro c hc <;> rw [runReset_calls, h0] at hc <;>
      cases hc
  have hinv := pageLoop_Inv4 cfg env ext (pagesN cfg).toNat 0 (runReset st) hinv0
  refine ⟨hinv.marked, ?_, hinv.avoid, ?_⟩
  · intro x hx
    exact pageLoop_exh_mono cfg env ext (pagesN cfg).toNat 0 (runReset st) x hx
  · intro c1 h1 c2 h2 hq hlt
    refine ⟨hinv.pair c1 h1 c2 h2 hq hlt, fun hkeq => ?_⟩
    exact hinv.avoid c2 h2 (hkeq ▸ hinv.pair c1 h1 c2 h2 hq hlt)

/-! ## Claim C3: state sharing across the targets of a domains file -/

/-- The exhausted-set hand-over between consecutive target runs. -/
def exhLink (a b : TargetRun) : Prop :=
  b.start.exhaustedKeys = a.final.exhaustedKeys

/-- The target record appended by one iteration of `readDomainsFile`. -/
def targetRec (cfg : Cfg) (env : Env) (base cur : RunSt) (line : Str) :
    TargetRun :=
  ⟨trimL line,
   (runTargetM {cfg with target := trimL line} env
     (copyForTarget base (bumpCk cur))).1,
   copyForTarget base (bumpCk cur),
   (runTargetM {cfg with target := trimL line} env
     (copyForTarget base (bumpCk cur))).2⟩

theorem appended_delay (cfg : Cfg) (env : Env) (base cur : RunSt)
    (acc : List TargetRun) (line : Str)
    (hdelay : ∀ r ∈ acc, r.start.dynamicDelay = base.dynamicDelay) :
    ∀ r ∈ acc ++ [targetRec cfg env base cur line],
      r.start.dynamicDelay = base.dynamicDelay := by
  intro r hr
  rcases List.mem_append.mp hr with h | h
  · exact hdelay r h
  · rcases List.mem_cons.mp h with rfl | h
    · rfl
    · cases h

theorem appended_chain (cfg : Cfg) (env : Env) (base cur : RunSt)
    (acc : List TargetRun) (line : Str)
    (hchain : List.Chain' exhLink acc)
    (hlink : ∀ last ∈ acc.getLast?,
      cur.exhaustedKeys = last.final.exhaustedKeys) :
    List.Chain' exhLink (acc ++ [targetRec cfg env base cur line]) := by
  rw [List.chain'_append]
  refine ⟨hchain, List.chain'_singleton _, ?_⟩
  intro x hx y hy
  simp only [List.head?_cons, Option.mem_def, Option.some.injEq] at hy
  subst hy
  show (targetRec cfg env base cur line).start.exhaustedKeys
    = x.final.exhaustedKeys
  exact hlink x hx

theorem readDomainsFileM_aux (cfg : Cfg) (env : Env) (base : RunSt) :
    ∀ (targets : List Str) (cur : RunSt) (acc : List TargetRun),
      (∀ r ∈ acc, r.start.dynamicDelay = base.dynamicDelay) →
      List.Chain' exhLink acc →
      (∀ last ∈ acc.getLast?, cur.exhaustedKeys = last.final.exhaustedKeys) →
      (∀ r ∈ (readDomainsFileM cfg env base targets cur acc).runs,
        r.start.dynamicDelay = base.dynamicDelay) ∧
      List.Chain' exhLink (readDomainsFileM cfg env base targets cur acc).runs
  | [], _cur, _acc, hdelay, hchain, _hlink => ⟨hdelay, hchain⟩
  | line :: rest, cur, acc, hdelay, hchain, hlink => by
    simp only [readDomainsFileM]
    split_ifs with hcan htrim hbr hcan2
    · exact ⟨hdelay, hchain⟩
    · exact readDomainsFileM_aux cfg env base rest (bumpCk cur) acc
        hdelay hchain hlink
    · -- a branch ran and cancellation was observed right after it
      exact ⟨appended_delay cfg env base cur acc line hdelay,
        appended_chain cfg env base cur acc line hchain hlink⟩
    · exact readDomainsFileM_aux cfg env base rest
        (bumpCk (targetRec cfg env base cur line).final)
        (acc ++ [targetRec cfg env base cur line])
        (appended_delay cfg env base cur acc line hdelay)
        (appended_chain cfg env base cur acc line hchain hlink)
        (by
          intro last hlast
          rw [List.getLast?_concat] at hlast
          cases hlast
          rfl)
    · exact readDomainsFileM_aux cfg env base rest
        ((targetRec cfg env base cur line).final)
        (acc ++ [targetRec cfg env base cur line])
        (appended_delay cfg env base cur acc line hdelay)
        (appended_chain cfg env base cur acc line hchain hlink)
        (by
          intro last hlast
          rw [List.getLast?_concat] at hlast
          cases hlast
          rfl)

/-- Claim C3 (corrected form): all targets of a domains-file run share the
one Credential Pool and the one Exhausted Set — the exhausted set at the
start of each later target's run equals its value at the end of the previous
target's run (`exhaustedKeys` is a map, shared by reference through the
`c2 := *c` copy) — but the AdaptiveDelayState does not carry over: the copy
duplicates `dynamicDelay` by value, so every target starts from the outer
state's delay value. -/
theorem readDomainsFile_shared_state (cfg : Cfg) (env : Env) (base : RunSt)
    (targets : List Str) (cur : RunSt) :
    (∀ r ∈ (readDomainsFileM cfg env base targets cur []).runs,
      r.start.dynamicDelay = base.dynamicDelay) ∧
    List.Chain' exhLink (readDomainsFileM cfg env base targets cur []).runs :=
  readDomainsFileM_aux cfg env base targets cur []
    (fun _r hr => by cases hr) List.chain'_nil
    (fun _last hlast => by simp at hlast)

/-! ## Concrete runs: counterexamples and witnesses -/

/-- The engine state right after startup: empty store, empty exhausted set,
`dynamicDelay = 0.25` s (5 units of 0.05 s), all counters zero. -/
def stInit : RunSt := ⟨[], [], 5, false, 0, 0, 0, 0, 0, []⟩

/-- Default values for `getD` projections of concrete runs. -/
def defCall : CallRec := ⟨0, 0, [], 0, 0, 0, 0, 0, []⟩

def defReq : Req := ⟨[], 0, []⟩

def defTR : TargetRun := ⟨[], [], stInit, stInit⟩

/-- A plain-mode configuration (no dork/extension/dictionary/contents). -/
def plainCfg (keys : List Str) (pages delay : Int) : Cfg :=
  { target := str "t", pages := pages, dork := [], excludeTargets := [],
    contents := [], inFile := [], dictionary := [], inUrl := [],
    extension := [], delay := delay, includeSubdomains := false,
    subdomainMode := false, apiKeys := keys }

/-! Claim C1 concrete run: two distinct keys, every transport call fails. -/

def cfgC1 : Cfg := plainCfg [str "k1", str "k2"] 1 1

def envC1 : Env := ⟨fun _ => .fail, fun _ => 0, none⟩

/-- Claim C1 as stated fails: with two distinct credentials and transport
errors, both attempts of page 0 select the same credential `k1` (selection is
random with replacement), so "at most one attempt per credential per page"
does not hold. -/
theorem dorkRun_one_attempt_per_key_cex :
    (dorkRun cfgC1 [] envC1 stInit).2.calls.map
      (fun c => (c.page, c.attempt, c.key))
      = [(0, 0, str "k1"), (0, 1, str "k1")] ∧
    ¬ (∀ c1 ∈ (dorkRun cfgC1 [] envC1 stInit).2.calls,
       ∀ c2 ∈ (dorkRun cfgC1 [] envC1 stInit).2.calls,
        c1.page = c2.page → c1.key = c2.key → c1.attempt = c2.attempt) := by
  constructor
  · decide
  · decide

theorem dorkRun_page_and_attempt_bounds_witness :
    ((dorkRun cfgC1 [] envC1 stInit).2.calls.getD 0 defCall
      ∈ (dorkRun cfgC1 [] envC1 stInit).2.calls) ∧
    (((dorkRun cfgC1 [] envC1 stInit).2.calls.getD 0 defCall).page
        < (pagesN cfgC1).toNat ∧
      ((dorkRun cfgC1 [] envC1 stInit).2.calls.getD 0 defCall).attempt
        < cfgC1.apiKeys.length ∧
      ((dorkRun cfgC1 [] envC1 stInit).2.calls.getD 0 defCall).start
        = ((dorkRun cfgC1 [] envC1 stInit).2.calls.getD 0 defCall).page * 10
          + 1) :=
  ⟨by decide, dorkRun_page_and_attempt_bounds cfgC1 [] envC1 stInit rfl _
    (by decide)⟩

/-! Claim C4 concrete run: the first call hits the quota signal, the second
credential then produces results. -/

def cfgC4 : Cfg := plainCfg [str "k1", str "k2"] 1 1

def envC4 : Env :=
  ⟨fun n => if n = 0 then .ok ⟨[], some (str "Quota exceeded for quota metric")⟩
    else .ok ⟨[str "http://t/a"], none⟩, fun _ => 0, none⟩

theorem dorkRun_quota_marking_witness :
    (dorkRun cfgC4 [] envC4 stInit).1 = [str "http://t/a"] ∧
    (dorkRun cfgC4 [] envC4 stInit).2.exhaustedKeys = [str "k1"] ∧
    (((dorkRun cfgC4 [] envC4 stInit).2.calls.getD 0 defCall).key
        ∈ ((dorkRun cfgC4 [] envC4 stInit).2.calls.getD 1 defCall).exhAtSel ∧
      ((dorkRun cfgC4 [] envC4 stInit).2.calls.getD 1 defCall).key
        ≠ ((dorkRun cfgC4 [] envC4 stInit).2.calls.getD 0 defCall).key) :=
  ⟨by decide, by decide,
    (dorkRun_quota_marking cfgC4 [] envC4 stInit rfl).2.2.2
      _ (by decide) _ (by decide) (by decide) (by decide)⟩

/-! Claim C5 concrete run: five pages requested, every response carries the
same link, cancellation observed at checkpoint 6 — the check at the top of
page 2. -/

def cfgC5 : Cfg := plainCfg [str "k"] 5 1

def envC5 : Env := ⟨fun _ => .ok ⟨[str "http://t/a"], none⟩, fun _ => 0, some 6⟩

/-- Claim C5 as stated fails: cancellation between page 2 and page 3 returns
the accumulated links of pages 1–2 without attempting page 3, but the
returned list is *not* deduplicated across pages — the same link gathered on
both pages appears twice. -/
theorem dorkRun_cancel_dedup_cex :
    (dorkRun cfgC5 [] envC5 stInit).1 = [str "http://t/a", str "http://t/a"] ∧
    ¬ (dorkRun cfgC5 [] envC5 stInit).1.Nodup ∧
    (dorkRun cfgC5 [] envC5 stInit).2.calls.map (fun c => c.page) = [0, 1] := by
  refine ⟨by decide, by decide, by decide⟩

theorem dorkRun_cancel_no_late_calls_witness :
    ((dorkRun cfgC5 [] envC5 stInit).2.calls.getD 1 defCall
      ∈ (dorkRun cfgC5 [] envC5 stInit).2.calls) ∧
    ((dorkRun cfgC5 [] envC5 stInit).2.calls.getD 1 defCall).ck < 6 :=
  ⟨by decide, dorkRun_cancel_no_late_calls cfgC5 [] envC5 stInit 6 rfl rfl _
    (by decide)⟩

/-! Claim C6 concrete run: page 0 yields a link, page 1 yields none although
three more pages were allowed. -/

def cfgC6 : Cfg := plainCfg [str "k"] 5 1

def envC6 : Env :=
  ⟨fun n => if n = 0 then .ok ⟨[str "http://t/a"], none⟩ else .ok ⟨[], none⟩,
   fun _ => 0, none⟩

theorem dorkRun_empty_page_terminates_witness :
    (dorkRun cfgC6 [] envC6 stInit).1 = [str "http://t/a"] ∧
    (dorkRun cfgC6 [] envC6 stInit).2.calls.map (fun c => c.page) = [0, 1] ∧
    ∃ c' ∈ (dorkRun cfgC6 [] envC6 stInit).2.calls, c'.page = 0 ∧
      filterLinks (respLinks (envC6.resp c'.idx)) cfgC6.target ≠ [] :=
  ⟨by decide, by decide,
    dorkRun_empty_page_terminates cfgC6 [] envC6 stInit rfl
      ((dorkRun cfgC6 [] envC6 stInit).2.calls.getD 1 defCall)
      (by decide) 0 (by decide)⟩

/-! Claim C7 concrete runs. -/

def cfgC7 : Cfg := plainCfg [str "k"] 3 1

def envC7 : Env := ⟨fun _ => .ok ⟨[str "http://t/a"], none⟩, fun _ => 0, none⟩

theorem dorkRun_dynamicDelay_witness :
    0 ≤ (dorkRun cfgC7 [] envC7 stInit).2.dynamicDelay ∧
    (dorkRun cfgC7 [] envC7 stInit).2.dynamicDelay = stInit.dynamicDelay :=
  have h := dorkRun_dynamicDelay_nonneg_and_fixed cfgC7 [] envC7 stInit rfl
    (by decide)
  ⟨h.1.1, (h.2 (by decide)).1⟩

/-! Claim C8 concrete instance. -/

def cfgC8 : Cfg :=
  { plainCfg [str "k"] 1 1 with excludeTargets := str "-site:x.t" }

theorem buildExclusions_format_and_applied_witness :
    (buildExclusionsFromParts (str "a" :: [str "b"])
      = str "-site:" ++ str "a" ++ [str "b"].flatMap (fun e => str "+-" ++ e)) ∧
    ∃ core, ((buildRequests cfgC8 [] (str "k") 1).getD 0 defReq).q
      = trimL (core ++ str " " ++ cfgC8.excludeTargets) :=
  have h := buildExclusions_format_and_applied (str "a") [str "b"] cfgC8 []
    (str "k") 1 (by decide)
  ⟨h.1, h.2 _ (by decide)⟩

/-! Claim C3 concrete run: two targets in dork mode, all responses are
successful but empty; the first target's empty page raises the adaptive
delay from 5 to 7 units, yet the second target starts again from 5. -/

def cfgC3 : Cfg := { plainCfg [str "k"] 1 0 with dork := str "x", target := [] }

def envC3 : Env := ⟨fun _ => .ok ⟨[], none⟩, fun _ => 0, none⟩

/-- Claim C3 as stated fails: the adaptive delay at the start of the second
target's run (5 units) differs from its value at the end of the first
target's run (7 units) — the `c2 := *c` copy resets it — while the exhausted
set does carry over. -/
theorem readDomainsFile_delay_cex :
    (readDomainsFileM cfgC3 envC3 stInit [str "t1", str "t2"] stInit []).runs.length = 2 ∧
    ((readDomainsFileM cfgC3 envC3 stInit [str "t1", str "t2"] stInit []).runs.getD 0 defTR).final.dynamicDelay = 7 ∧
    ((readDomainsFileM cfgC3 envC3 stInit [str "t1", str "t2"] stInit []).runs.getD 1 defTR).start.dynamicDelay = 5 ∧
    ((readDomainsFileM cfgC3 envC3 stInit [str "t1", str "t2"] stInit []).runs.getD 1 defTR).start.dynamicDelay
      ≠ ((readDomainsFileM cfgC3 envC3 stInit [str "t1", str "t2"] stInit []).runs.getD 0 defTR).final.dynamicDelay := by
  refine ⟨by decide, by decide, by decide, by decide⟩

theorem outputSink_idempotent_trimmed_witness :
    (∀ u ∈ [str "http://t/a"], trimL u = u) ∧
    (outputOrPrintUnique [str "http://t/a"] "out.txt"
        (outputOrPrintUnique [str "http://t/a"] "out.txt" [] true).file
        true).file
      = (outputOrPrintUnique [str "http://t/a"] "out.txt" [] true).file :=
  ⟨by decide,
    outputSink_idempotent_trimmed [str "http://t/a"] "out.txt" [] (by decide)⟩

theorem outputSink_fallback_prints_all_witness :
    (outputOrPrintUnique [str "b", str "a"] "out.txt" [] false).printed
      = sortStrings (uniqueStrings [str "b", str "a"]) ∧
    (outputOrPrintUnique [str "b", str "a"] "out.txt" [] false).file = [] ∧
    str "a" ∈ (outputOrPrintUnique [str "b", str "a"] "out.txt" [] false).printed :=
  have h := outputSink_fallback_prints_all [str "b", str "a"] "out.txt" []
    (by decide)
  ⟨h.1, h.2.1, h.2.2 (str "a") (by decide) (by decide)⟩

end Banshee
